import Mathlib

/-!
# gouroboros: CBOR fast introspection and the chain-sync server

A shallow embedding of `cbor/decode.go`, `protocol/chainsync/server.go` and
`ledger/shelley/pparams.go`.
Go functions that return `(value, error)` are embedded as functions into
`Outcome`, which also records a run-time panic (index out of range, failed
type assertion). The methods of the chain-sync server pass a `World`
explicitly: the state its callbacks and its engine act on, and the trace of the
server's own calls. Debug logging is left out.
-/

namespace cbor

/-- One octet of input. -/
abbrev Byte := Fin 256

/-- A `cbor.RawMessage`: the undecoded bytes of one data item. -/
abbrev RawMessage := List Byte

/-- Generic data items of RFC 8949, the wire format named by the specification.
`uint` is major type 0 (the generic decode yields a Go `uint64` for it),
`nint n` is the negative integer `-1 - n`, and so on through major type 7. -/
inductive Item where
  | uint (n : Nat)
  | nint (n : Nat)
  | bytes (b : List Byte)
  | text (b : List Byte)
  | array (xs : List Item)
  | map (kvs : List (Item × Item))
  | tag (t : Nat) (x : Item)
  | simple (v : Nat)
  | float (width : Nat) (bits : Nat)

/-- Errors reported by the decoder behind `Decode`. -/
inductive DecodeError where
  | malformed
  | typeMismatch
  deriving DecidableEq, Repr

/-- Errors returned by the functions of `cbor/decode.go`. -/
inductive Err where
  | decode (e : DecodeError)
  | emptyList
  | notNumeric (found : Item)
  | unknownId (id : Int)

/-- Run-time panics of the Go runtime that the embedded code can raise. -/
inductive Panic where
  | indexOutOfRange
  | typeAssertion
  deriving DecidableEq, Repr

/-- Result of a Go function returning `(value, error)`: either it returns the
pair, or it panics. -/
inductive Outcome (ε α : Type) where
  | ret (val : α) (err : Option ε)
  | panic (p : Panic)

/-- Modelled from the spec: `CBOR_TYPE_ARRAY` of `cbor/cbor.go`, the
"array_type_base" subtracted from the leading byte (0x80). -/
def CBOR_TYPE_ARRAY : Nat := 0x80

/-- Modelled from the spec: `CBOR_MAX_UINT_SIMPLE` of `cbor/cbor.go`, the largest
"immediate small value" (23). -/
def CBOR_MAX_UINT_SIMPLE : Nat := 0x17

/-- Major type of an initial byte (its high three bits). -/
def majorType (ib : Byte) : Nat := ib.val / 32

/-- Additional information of an initial byte (its low five bits). -/
def addInfo (ib : Byte) : Nat := ib.val % 32

/-- Big-endian value of a byte string. -/
def beNat (bs : List Byte) : Nat := bs.foldl (fun acc b => acc * 256 + b.val) 0

/-- Split off the first `n` bytes, failing on truncated input. -/
def takeN (n : Nat) (bs : List Byte) : Option (List Byte × List Byte) :=
  if n ≤ bs.length then some (bs.take n, bs.drop n) else none

/-- The argument of a head whose additional information is `ai` (RFC 8949 §3):
the value itself below 24, the next 1, 2, 4 or 8 bytes for 24..27; 28..30 are
reserved and 31 is handled by the caller. -/
def readArg (ai : Nat) (bs : List Byte) : Option (Nat × List Byte) :=
  if ai < 24 then some (ai, bs)
  else if ai = 24 then (takeN 1 bs).map fun p => (beNat p.1, p.2)
  else if ai = 25 then (takeN 2 bs).map fun p => (beNat p.1, p.2)
  else if ai = 26 then (takeN 4 bs).map fun p => (beNat p.1, p.2)
  else if ai = 27 then (takeN 8 bs).map fun p => (beNat p.1, p.2)
  else none

/-- Chunks of an indefinite-length string of major type `mt`: definite-length
strings of the same major type up to the break byte 0xff. -/
def decodeChunks (mt : Nat) : Nat → List Byte → Option (List Byte × List Byte)
  | 0, _ => none
  | _ + 1, [] => none
  | fuel + 1, ib :: bs =>
    if ib.val = 0xff then some ([], bs)
    else if majorType ib = mt ∧ addInfo ib ≠ 31 then
      match readArg (addInfo ib) bs with
      | none => none
      | some (n, r) =>
        match takeN n r with
        | none => none
        | some (chunk, r2) =>
          match decodeChunks mt fuel r2 with
          | none => none
          | some (more, r3) => some (chunk ++ more, r3)
    else none

/-- Pair up the items of a map body; an odd number of items is malformed. -/
def pairUp : List Item → Option (List (Item × Item))
  | [] => some []
  | [_] => none
  | k :: v :: tl => (pairUp tl).map fun kvs => (k, v) :: kvs

/-- Items of major type 7 with a definite head: simple values and floats. A
two-byte simple value below 32 is malformed. -/
def decodePrimitive (ai val : Nat) (r : List Byte) : Option (Item × List Byte) :=
  if ai < 24 then some (Item.simple val, r)
  else if ai = 24 then (if val < 32 then none else some (Item.simple val, r))
  else some (Item.float ai val, r)

/-- What the head of a data item announces: a complete item (integers, strings,
simple values, floats), or content that is itself made of data items. -/
inductive Body where
  | leaf (x : Item) (rest : List Byte)
  | arr (n : Nat) (rest : List Byte)
  | arrIndef (rest : List Byte)
  | mp (n : Nat) (rest : List Byte)
  | mpIndef (rest : List Byte)
  | tagged (t : Nat) (rest : List Byte)

/-- The unread input a head leaves behind. -/
def Body.rest : Body → List Byte
  | .leaf _ r => r
  | .arr _ r => r
  | .arrIndef r => r
  | .mp _ r => r
  | .mpIndef r => r
  | .tagged _ r => r

/-- Read the head that starts with initial byte `ib` (RFC 8949 appendix C):
additional information 31 opens an indefinite-length string, array or map; any
other head carries an argument and is dispatched on the major type. -/
def decodeHead (ib : Byte) (bs : List Byte) : Option Body :=
  if addInfo ib = 31 then
    if majorType ib = 2 then
      (decodeChunks 2 bs.length bs).map fun p => Body.leaf (Item.bytes p.1) p.2
    else if majorType ib = 3 then
      (decodeChunks 3 bs.length bs).map fun p => Body.leaf (Item.text p.1) p.2
    else if majorType ib = 4 then some (Body.arrIndef bs)
    else if majorType ib = 5 then some (Body.mpIndef bs)
    else none
  else
    match readArg (addInfo ib) bs with
    | none => none
    | some (val, r) =>
      if majorType ib = 0 then some (Body.leaf (Item.uint val) r)
      else if majorType ib = 1 then some (Body.leaf (Item.nint val) r)
      else if majorType ib = 2 then (takeN val r).map fun p => Body.leaf (Item.bytes p.1) p.2
      else if majorType ib = 3 then (takeN val r).map fun p => Body.leaf (Item.text p.1) p.2
      else if majorType ib = 4 then some (Body.arr val r)
      else if majorType ib = 5 then some (Body.mp val r)
      else if majorType ib = 6 then some (Body.tagged val r)
      else (decodePrimitive (addInfo ib) val r).map fun p => Body.leaf p.1 p.2

mutual

/-- One data item from the front of the input, with the unread remainder
(the well-formedness procedure of RFC 8949 appendix C, building the item). -/
def decodeItem : Nat → List Byte → Option (Item × List Byte)
  | 0, _ => none
  | _ + 1, [] => none
  | fuel + 1, ib :: bs =>
    match decodeHead ib bs with
    | none => none
    | some (Body.leaf x r) => some (x, r)
    | some (Body.arr n r) =>
      (decodeSeq fuel n r).map fun p => (Item.array (p.1.map Prod.fst), p.2)
    | some (Body.arrIndef r) =>
      (decodeUntilBreak fuel r).map fun p => (Item.array (p.1.map Prod.fst), p.2)
    | some (Body.mp n r) =>
      (decodeSeq fuel (2 * n) r).bind fun p =>
        (pairUp (p.1.map Prod.fst)).map fun kvs => (Item.map kvs, p.2)
    | some (Body.mpIndef r) =>
      (decodeUntilBreak fuel r).bind fun p =>
        (pairUp (p.1.map Prod.fst)).map fun kvs => (Item.map kvs, p.2)
    | some (Body.tagged t r) =>
      (decodeItem fuel r).map fun p => (Item.tag t p.1, p.2)

/-- Exactly `n` consecutive data items, each paired with its raw encoding. -/
def decodeSeq : Nat → Nat → List Byte → Option (List (Item × RawMessage) × List Byte)
  | _, 0, bs => some ([], bs)
  | 0, _ + 1, _ => none
  | fuel + 1, n + 1, bs =>
    match decodeItem fuel bs with
    | none => none
    | some (x, r) =>
      match decodeSeq fuel n r with
      | none => none
      | some (xs, r2) => some ((x, bs.take (bs.length - r.length)) :: xs, r2)

/-- Consecutive data items up to the break byte 0xff, each paired with its raw
encoding. -/
def decodeUntilBreak : Nat → List Byte → Option (List (Item × RawMessage) × List Byte)
  | 0, _ => none
  | _ + 1, [] => none
  | fuel + 1, ib :: bs =>
    if ib.val = 0xff then some ([], bs)
    else
      match decodeItem fuel (ib :: bs) with
      | none => none
      | some (x, r) =>
        match decodeUntilBreak fuel r with
        | none => none
        | some (xs, r2) => some ((x, (ib :: bs).take ((ib :: bs).length - r.length)) :: xs, r2)

end

/-- Fuel with which `Decode` runs the item decoder: enough for every input of
that length (see `decodeItem_fuel_enough`). -/
def fuelFor (bs : List Byte) : Nat := 2 * bs.length

/-- The data item at the front of the input and the unread remainder, when the
input starts with a well-formed item. -/
def parse (bs : List Byte) : Option (Item × List Byte) := decodeItem (fuelFor bs) bs

/-- The elements of the array at the front of the input, each with its raw
encoding; the same walk `decodeItem` makes for major type 4. -/
def decodeElems (fuel : Nat) : List Byte → Option (List (Item × RawMessage) × List Byte)
  | [] => none
  | ib :: bs =>
    match decodeHead ib bs with
    | some (Body.arr n r) => decodeSeq fuel n r
    | some (Body.arrIndef r) => decodeUntilBreak fuel r
    | _ => none

/-- Modelled from the spec: `Decode(dataBytes, &tmp)` for a destination of type
`[]RawMessage`; the decoder library behind `Decode` is not among the sources.
It "fails with DecodeError on malformed input, type mismatch, or truncated
data": an array yields the raw encodings of its elements, any other well-formed
item is a type mismatch. The byte count `Decode` also returns is discarded by
every caller in `cbor/decode.go` and is left out. -/
def DecodeRawMessages (dataBytes : List Byte) : Except DecodeError (List RawMessage) :=
  match dataBytes with
  | [] => .error .malformed
  | ib :: _ =>
    if majorType ib = 4 then
      match decodeElems (fuelFor dataBytes - 1) dataBytes with
      | none => .error .malformed
      | some (ps, _) => .ok (ps.map Prod.snd)
    else
      match parse dataBytes with
      | none => .error .malformed
      | some _ => .error .typeMismatch

/-- Modelled from the spec: `Decode(dataBytes, &tmp)` for a destination of type
`Value` (`cbor/value.go` is not among the sources), the "full generic decode":
the item at the front of the input, an array as a Go `[]interface{}` and an
unsigned integer as a Go `uint64`. -/
def DecodeValue (dataBytes : List Byte) : Except DecodeError Item :=
  match parse dataBytes with
  | none => .error .malformed
  | some (x, _) => .ok x

/-- Go conversion `int(v)` of a `uint64` on a 64-bit platform: the same bits
read as two's complement. -/
def intOfUint64 (v : Nat) : Int :=
  if v % 2 ^ 64 < 2 ^ 63 then ((v % 2 ^ 64 : Nat) : Int) else ((v % 2 ^ 64 : Nat) : Int) - 2 ^ 64

/-- Determine the length of a CBOR list (`ListLength`, decode.go:53). -/
def ListLength (cborData : List Byte) : Outcome Err Int :=
  match cborData[0]? with
  | none => .panic .indexOutOfRange
  | some b0 =>
    if b0.val ≥ CBOR_TYPE_ARRAY ∧ b0.val ≤ CBOR_TYPE_ARRAY + CBOR_MAX_UINT_SIMPLE then
      .ret ((b0.val : Int) - (CBOR_TYPE_ARRAY : Int)) none
    else
      match DecodeRawMessages cborData with
      | .error e => .ret 0 (some (.decode e))
      | .ok tmp => .ret (tmp.length : Int) none

/-- The tail of `DecodeIdFromList` (decode.go:37-49): decode the whole list into
a `Value` and require element 0 to be a `uint64`. -/
def decodeIdFull (cborData : List Byte) : Outcome Err Int :=
  match DecodeValue cborData with
  | .error e => .ret 0 (some (.decode e))
  | .ok tmp =>
    match tmp with
    | Item.array [] => .panic .indexOutOfRange
    | Item.array (Item.uint v :: _) => .ret (intOfUint64 v) none
    | Item.array (x :: _) => .ret 0 (some (.notNumeric x))
    | _ => .panic .typeAssertion

/-- Extract the first item from a CBOR list (`DecodeIdFromList`, decode.go:21). -/
def DecodeIdFromList (cborData : List Byte) : Outcome Err Int :=
  match ListLength cborData with
  | .panic p => .panic p
  | .ret _ (some err) => .ret 0 (some err)
  | .ret listLen none =>
    if listLen = 0 then .ret 0 (some .emptyList)
    else if listLen < (CBOR_MAX_UINT_SIMPLE : Int) then
      match cborData[1]? with
      | none => .panic .indexOutOfRange
      | some b1 =>
        if b1.val ≤ CBOR_MAX_UINT_SIMPLE then .ret (b1.val : Int) none
        else decodeIdFull cborData
    else decodeIdFull cborData

/-- Memory reachable from the destinations of an id map, with the log of the
destinations `DecodeById` has handed to `Decode`. -/
structure Mem (σ δ : Type) where
  heap : σ
  decoded : List δ

/-- Decode CBOR list data by the leading value (`DecodeById`, decode.go:69).
`idMap id` is `none` when the key is absent and `some none` when it maps to a
nil interface; `decodeInto` is `Decode` into a caller-supplied destination,
which depends on the destination's Go type and is a parameter. -/
def DecodeById {σ δ : Type} (decodeInto : List Byte → δ → σ → Option DecodeError × σ)
    (cborData : List Byte) (idMap : Int → Option (Option δ)) (m : Mem σ δ) :
    Outcome Err (Option δ) × Mem σ δ :=
  match DecodeIdFromList cborData with
  | .panic p => (.panic p, m)
  | .ret _ (some err) => (.ret none (some err), m)
  | .ret id none =>
    match idMap id with
    | none => (.ret none (some (.unknownId id)), m)
    | some none => (.ret none (some (.unknownId id)), m)
    | some (some ret) =>
      match decodeInto cborData ret m.heap with
      | (some e, h) => (.ret none (some (.decode e)), ⟨h, m.decoded ++ [ret]⟩)
      | (none, h) => (.ret (some ret) none, ⟨h, m.decoded ++ [ret]⟩)

end cbor

namespace protocol

/-- Modelled from the spec: the deployment modes of `protocol/protocol.go` (not
among the sources), "node-to-node vs node-to-client". -/
inductive ProtocolMode where
  | ProtocolModeNone
  | ProtocolModeNodeToClient
  | ProtocolModeNodeToNode
  deriving DecidableEq, Repr

/-- Modelled from the spec: the role of a protocol instance, "Server or Client". -/
inductive ProtocolRole where
  | ProtocolRoleNone
  | ProtocolRoleClient
  | ProtocolRoleServer
  deriving DecidableEq, Repr

/-- Modelled from the spec: `protocol.ProtocolOptions`, what a connection hands to
a mini-protocol. Muxer, logger, error channel and connection id are handles. -/
structure ProtocolOptions where
  ConnectionId : Nat
  Muxer : Nat
  Logger : Nat
  ErrorChan : Nat
  Mode : ProtocolMode
  deriving DecidableEq, Repr

end protocol

namespace chainsync

open protocol

/-- Modelled from the spec: the two numeric protocol identifiers of chain-sync,
one per mode ("node-to-node selects one numeric protocol identifier ...;
node-to-client selects another"). -/
inductive ProtocolId where
  | ProtocolIdNtN
  | ProtocolIdNtC
  deriving DecidableEq, Repr

/-- Modelled from the spec: the two message factories, one per mode. -/
inductive MessageFromCborFunc where
  | NewMsgFromCborNtN
  | NewMsgFromCborNtC
  deriving DecidableEq, Repr

/-- Modelled from the spec: the states of chain synchronization (§4.3). -/
inductive State where
  | stateIdle
  | stateCanAwait
  | stateMustReply
  | stateIntersect
  | stateDone
  deriving DecidableEq, Repr

/-- Modelled from the spec: the type tag a message reports through `Type()`;
`unknown` stands for any tag outside the chain-sync message set. -/
inductive MessageType where
  | MessageTypeRequestNext
  | MessageTypeAwaitReply
  | MessageTypeRollForward
  | MessageTypeRollBackward
  | MessageTypeFindIntersect
  | MessageTypeIntersectFound
  | MessageTypeIntersectNotFound
  | MessageTypeDone
  | unknown (tag : Nat)
  deriving DecidableEq, Repr

/-- Modelled from the spec: the transitions of chain synchronization (§4.3),
`(state, message type, next state)`. -/
def StateMap : List (State × MessageType × State) :=
  [ (.stateIdle, .MessageTypeRequestNext, .stateCanAwait),
    (.stateIdle, .MessageTypeFindIntersect, .stateIntersect),
    (.stateIdle, .MessageTypeDone, .stateDone),
    (.stateCanAwait, .MessageTypeAwaitReply, .stateMustReply),
    (.stateCanAwait, .MessageTypeRollForward, .stateIdle),
    (.stateCanAwait, .MessageTypeRollBackward, .stateIdle),
    (.stateMustReply, .MessageTypeRollForward, .stateIdle),
    (.stateMustReply, .MessageTypeRollBackward, .stateIdle),
    (.stateIntersect, .MessageTypeIntersectFound, .stateIdle),
    (.stateIntersect, .MessageTypeIntersectNotFound, .stateIdle) ]

/-- Modelled from the spec: a chain point, opaque to the server. -/
structure Point where
  Slot : Nat
  Hash : List cbor.Byte
  deriving DecidableEq

/-- Modelled from the spec: a chain tip, opaque to the server. -/
structure Tip where
  Point : Point
  BlockNumber : Nat
  deriving DecidableEq

/-- Modelled from the spec: the messages of chain synchronization, each built by
its `NewMsg...` constructor from the arguments shown; `other` is a message of
any further Go type, reporting the type tag `t`. -/
inductive Message where
  | MsgRequestNext
  | MsgAwaitReply
  | MsgRollForwardNtC (blockType : Nat) (blockData : List cbor.Byte) (tip : Tip)
  | MsgRollForwardNtN (era : Nat) (byronType : Nat) (blockData : List cbor.Byte) (tip : Tip)
  | MsgRollBackward (point : Point) (tip : Tip)
  | MsgFindIntersect (points : List Point)
  | MsgIntersectFound (point : Point) (tip : Tip)
  | MsgIntersectNotFound (tip : Tip)
  | MsgDone
  | other (t : MessageType)
  deriving DecidableEq

/-- The type tag of a message (`msg.Type()`). -/
def Message.Type : Message → MessageType
  | .MsgRequestNext => .MessageTypeRequestNext
  | .MsgAwaitReply => .MessageTypeAwaitReply
  | .MsgRollForwardNtC _ _ _ => .MessageTypeRollForward
  | .MsgRollForwardNtN _ _ _ _ => .MessageTypeRollForward
  | .MsgRollBackward _ _ => .MessageTypeRollBackward
  | .MsgFindIntersect _ => .MessageTypeFindIntersect
  | .MsgIntersectFound _ _ => .MessageTypeIntersectFound
  | .MsgIntersectNotFound _ => .MessageTypeIntersectNotFound
  | .MsgDone => .MessageTypeDone
  | .other t => t

/-- Go `error` values seen by the server. `IntersectNotFoundError` is the
sentinel the server compares against; `other` is any further error value,
returned by a callback or by the engine. -/
inductive Error where
  | IntersectNotFoundError
  | noRequestNextCallback
  | noFindIntersectCallback
  | unexpectedMessageType (t : MessageType)
  | other (text : String)
  deriving DecidableEq, Repr

/-- The handle passed to callbacks (server.go:46); the back-reference to the
server is an identity and carries no data here. -/
structure CallbackContext where
  ConnectionId : Nat
  deriving DecidableEq, Repr

/-- The engine configuration built by `initProtocol` (server.go:63-76). The
message handler is always the server's own `messageHandler`. -/
structure ProtocolConfig where
  ProtocolId : ProtocolId
  Muxer : Nat
  Logger : Nat
  ErrorChan : Nat
  Mode : ProtocolMode
  Role : ProtocolRole
  MessageFromCborFunc : MessageFromCborFunc
  StateMap : List (State × MessageType × State)
  StateContext : Nat
  InitialState : State
  deriving DecidableEq

/-- Modelled from the spec: an engine instance as returned by `protocol.New`; its
running state lives in the world, its configuration is fixed. -/
structure Protocol where
  config : ProtocolConfig
  deriving DecidableEq

/-- Modelled from the spec: `Protocol.Mode()`, the mode the engine was
configured with. -/
def Protocol.Mode (p : Protocol) : ProtocolMode := p.config.Mode

/-- What the server does to the outside, in order. -/
inductive Event where
  | requestNextCalled (ctx : CallbackContext)
  | findIntersectCalled (ctx : CallbackContext) (points : List Point)
  | sendMessage (msg : Message)
  | engineNew (cfg : ProtocolConfig)
  | engineStop (p : Protocol)
  | engineStart (p : Protocol)
  deriving DecidableEq

/-- The world a server acts on: the state `app` that callbacks and the engine
read and change, and the trace of the server's own actions. -/
structure World (σ : Type) where
  app : σ
  trace : List Event

/-- The callbacks a chain-sync server is configured with (spec §6); an unset
callback is `none`. -/
structure Config (σ : Type) where
  RequestNextFunc : Option (CallbackContext → σ → Option Error × σ)
  FindIntersectFunc :
    Option (CallbackContext → List Point → σ → (Point × Tip × Option Error) × σ)

/-- What the server needs from code outside `server.go`: the engine's
operations and the static block-type→era table
`ledger.BlockToBlockHeaderTypeMap`. -/
structure Env (σ : Type) where
  New : ProtocolConfig → σ → σ
  Start : Protocol → σ → σ
  Stop : Protocol → σ → σ
  SendMessage : Protocol → Message → σ → Option Error × σ
  BlockToBlockHeaderTypeMap : Nat → Option Nat

/-- The ChainSync server (server.go:26); `config` is `none` for a nil pointer. -/
structure Server (σ : Type) where
  Protocol : Protocol
  config : Option (Config σ)
  callbackContext : CallbackContext
  protoOptions : ProtocolOptions
  stateContext : Nat

/-- Result of a server method: the `error` it returns with the state it leaves,
or a run-time panic. -/
inductive Result (α : Type) where
  | returned (err : Option Error) (st : α)
  | panicked (p : cbor.Panic)

/-- The configuration `initProtocol` builds from the saved protocol options and
state context (server.go:55-76). -/
def protoConfig (protoOptions : ProtocolOptions) (stateContext : Nat) : ProtocolConfig :=
  let ids : ProtocolId × MessageFromCborFunc :=
    if protoOptions.Mode = .ProtocolModeNodeToNode then
      (.ProtocolIdNtN, .NewMsgFromCborNtN)
    else (.ProtocolIdNtC, .NewMsgFromCborNtC)
  { ProtocolId := ids.1
    Muxer := protoOptions.Muxer
    Logger := protoOptions.Logger
    ErrorChan := protoOptions.ErrorChan
    Mode := protoOptions.Mode
    Role := .ProtocolRoleServer
    MessageFromCborFunc := ids.2
    StateMap := StateMap
    StateContext := stateContext
    InitialState := .stateIdle }

/-- `(s *Server) initProtocol()` (server.go:54): build the configuration and
install a new engine made from it. -/
def Server.initProtocol {σ : Type} (env : Env σ) (s : Server σ) (w : World σ) :
    Server σ × World σ :=
  let cfg := protoConfig s.protoOptions s.stateContext
  ({ s with Protocol := ⟨cfg⟩ }, ⟨env.New cfg w.app, w.trace ++ [.engineNew cfg]⟩)

/-- `NewServer` (server.go:35): save the arguments, set the callback context and
run `initProtocol`. The engine pointer is nil until `initProtocol` has run, so
the server value is formed with its first engine in place. -/
def NewServer {σ : Type} (env : Env σ) (stateContext : Nat) (protoOptions : ProtocolOptions)
    (cfg : Option (Config σ)) (w : World σ) : Server σ × World σ :=
  let pc := protoConfig protoOptions stateContext
  ({ Protocol := ⟨pc⟩
     config := cfg
     callbackContext := { ConnectionId := protoOptions.ConnectionId }
     protoOptions := protoOptions
     stateContext := stateContext },
    ⟨env.New pc w.app, w.trace ++ [.engineNew pc]⟩)

/-- `s.SendMessage(msg)`, the engine's send on the server's current engine. -/
def Server.SendMessage {σ : Type} (env : Env σ) (s : Server σ) (msg : Message) (w : World σ) :
    Option Error × World σ :=
  ((env.SendMessage s.Protocol msg w.app).1,
    ⟨(env.SendMessage s.Protocol msg w.app).2, w.trace ++ [.sendMessage msg]⟩)

/-- `(s *Server) RollBackward` (server.go:80). -/
def Server.RollBackward {σ : Type} (env : Env σ) (s : Server σ) (point : Point) (tip : Tip)
    (w : World σ) : Option Error × World σ :=
  s.SendMessage env (.MsgRollBackward point tip) w

/-- `(s *Server) AwaitReply` (server.go:87). -/
def Server.AwaitReply {σ : Type} (env : Env σ) (s : Server σ) (w : World σ) :
    Option Error × World σ :=
  s.SendMessage env .MsgAwaitReply w

/-- `(s *Server) RollForward` (server.go:94). A Go map lookup of a missing key
yields the zero value. -/
def Server.RollForward {σ : Type} (env : Env σ) (s : Server σ) (blockType : Nat)
    (blockData : List cbor.Byte) (tip : Tip) (w : World σ) : Option Error × World σ :=
  if s.Protocol.Mode = .ProtocolModeNodeToNode then
    let eraId := (env.BlockToBlockHeaderTypeMap blockType).getD 0
    s.SendMessage env (.MsgRollForwardNtN eraId 0 blockData tip) w
  else
    s.SendMessage env (.MsgRollForwardNtC blockType blockData tip) w

/-- `(s *Server) handleRequestNext` (server.go:137). -/
def Server.handleRequestNext {σ : Type} (s : Server σ) (w : World σ) :
    Option Error × World σ :=
  match s.config with
  | none => (some .noRequestNextCallback, w)
  | some cfg =>
    match cfg.RequestNextFunc with
    | none => (some .noRequestNextCallback, w)
    | some f =>
      ((f s.callbackContext w.app).1,
        ⟨(f s.callbackContext w.app).2, w.trace ++ [.requestNextCalled s.callbackContext]⟩)

/-- `(s *Server) handleFindIntersect` (server.go:150). The type assertion
`msg.(*MsgFindIntersect)` panics on any other message. -/
def Server.handleFindIntersect {σ : Type} (env : Env σ) (s : Server σ) (msg : Message)
    (w : World σ) : Result (World σ) :=
  match s.config with
  | none => .returned (some .noFindIntersectCallback) w
  | some cfg =>
    match cfg.FindIntersectFunc with
    | none => .returned (some .noFindIntersectCallback) w
    | some f =>
      match msg with
      | .MsgFindIntersect points =>
        match f s.callbackContext points w.app with
        | ((point, tip, err), app1) =>
          let w1 : World σ :=
            ⟨app1, w.trace ++ [.findIntersectCalled s.callbackContext points]⟩
          match err with
          | some err =>
            if err = .IntersectNotFoundError then
              match s.SendMessage env (.MsgIntersectNotFound tip) w1 with
              | (some e, w2) => .returned (some e) w2
              | (none, w2) => .returned none w2
            else .returned (some err) w1
          | none =>
            match s.SendMessage env (.MsgIntersectFound point tip) w1 with
            | (some e, w2) => .returned (some e) w2
            | (none, w2) => .returned none w2
      | _ => .panicked .typeAssertion

/-- `(s *Server) handleDone` (server.go:180): stop the engine, install a new one,
start it. -/
def Server.handleDone {σ : Type} (env : Env σ) (s : Server σ) (w : World σ) :
    Option Error × Server σ × World σ :=
  let w1 : World σ := ⟨env.Stop s.Protocol w.app, w.trace ++ [.engineStop s.Protocol]⟩
  let sw := s.initProtocol env w1
  let w2 : World σ :=
    ⟨env.Start sw.1.Protocol sw.2.app, sw.2.trace ++ [.engineStart sw.1.Protocol]⟩
  (none, sw.1, w2)

/-- `(s *Server) messageHandler` (server.go:116). -/
def Server.messageHandler {σ : Type} (env : Env σ) (s : Server σ) (msg : Message)
    (w : World σ) : Result (Server σ × World σ) :=
  match msg.Type with
  | .MessageTypeRequestNext =>
    .returned (s.handleRequestNext w).1 (s, (s.handleRequestNext w).2)
  | .MessageTypeFindIntersect =>
    match s.handleFindIntersect env msg w with
    | .returned err w1 => .returned err (s, w1)
    | .panicked p => .panicked p
  | .MessageTypeDone =>
    .returned (s.handleDone env w).1 (s.handleDone env w).2
  | t => .returned (some (.unexpectedMessageType t)) (s, w)

/-! ### A concrete server, used to instantiate the theorems -/

/-- An engine that accepts every send and counts them in the world state, with
a block-type→era table that knows block type 5. -/
def demoEnv : Env Nat where
  New := fun _ a => a
  Start := fun _ a => a
  Stop := fun _ a => a
  SendMessage := fun _ _ a => (none, a + 1)
  BlockToBlockHeaderTypeMap := fun bt => if bt = 5 then some 4 else none

/-- The tip the demonstration callbacks report. -/
def demoTip : Tip := ⟨⟨7, []⟩, 3⟩

/-- Callbacks for the demonstration: `FindIntersectFunc` reports the first
candidate point, or the not-found sentinel when there is none. -/
def demoConfig : Config Nat where
  RequestNextFunc := some fun _ a => (none, a + 10)
  FindIntersectFunc := some fun _ points a =>
    match points with
    | p :: _ => ((p, demoTip, none), a)
    | [] => ((⟨0, []⟩, demoTip, some .IntersectNotFoundError), a)

/-- A node-to-node server over `demoEnv` with `demoConfig`. -/
def demoServer : Server Nat :=
  (NewServer demoEnv 0 ⟨1, 0, 0, 0, .ProtocolModeNodeToNode⟩ (some demoConfig) ⟨0, []⟩).1

/-- A node-to-node server without configuration. -/
def bareServer : Server Nat :=
  (NewServer demoEnv 0 ⟨1, 0, 0, 0, .ProtocolModeNodeToNode⟩ none ⟨0, []⟩).1

end chainsync

namespace cbor

set_option linter.dupNamespace false in
/-- Modelled from the spec: `cbor.Rat` of `cbor/cbor.go` (not among the sources), a
rational number held through an embedded `*big.Rat`, which is taken to be set. -/
structure Rat where
  Rat : ℚ
  deriving DecidableEq

end cbor

namespace shelley

/-- Go's `if x != nil { ... *x ... }` on a state: run `assign` with the value
behind the pointer when there is one, leave the state alone otherwise. -/
def ifSet {α S : Type} (x : Option α) (assign : α → S → S) (s : S) : S :=
  match x with
  | some v => assign v s
  | none => s

/-- A Go `[32]byte`. -/
abbrev Bytes32 := { l : List cbor.Byte // l.length = 32 }

/-- The zero value of `[32]byte`. -/
def Bytes32.zero : Bytes32 := ⟨List.replicate 32 0, by rfl⟩

/-- `Nonce` (pparams.go:168); the embedded `cbor.StructAsArray` marker holds no
data. -/
structure Nonce where
  «Type» : Nat
  Value : Bytes32
  deriving DecidableEq

/-- `NonceType0` (pparams.go:160). -/
def NonceType0 : Int := 0

/-- `NonceType1` (pparams.go:161). -/
def NonceType1 : Int := 1

/-- `NeutralNonce` (pparams.go:164): `Type` is `NonceType0` and `Value` is left
at its zero value. -/
def NeutralNonce : Nonce := { «Type» := 0, Value := Bytes32.zero }

/-- `ShelleyProtocolParameters` (pparams.go:24). -/
structure ShelleyProtocolParameters where
  MinFeeA : Nat
  MinFeeB : Nat
  MaxBlockBodySize : Nat
  MaxTxSize : Nat
  MaxBlockHeaderSize : Nat
  KeyDeposit : Nat
  PoolDeposit : Nat
  MaxEpoch : Nat
  NOpt : Nat
  A0 : Option cbor.Rat
  Rho : Option cbor.Rat
  Tau : Option cbor.Rat
  Decentralization : Option cbor.Rat
  Nonce : Option Nonce
  ProtocolMajor : Nat
  ProtocolMinor : Nat
  MinUtxoValue : Nat
  deriving DecidableEq

/-- `ShelleyProtocolParametersProtocolVersion` (pparams.go:127). -/
structure ShelleyProtocolParametersProtocolVersion where
  Major : Nat
  Minor : Nat
  deriving DecidableEq

/-- `ShelleyProtocolParameterUpdate` (pparams.go:133): every entry is a pointer,
`none` when the entry is absent. The embedded `cbor.DecodeStoreCbor` (the stored
encoding) is not read by `Update` and is left out. -/
structure ShelleyProtocolParameterUpdate where
  MinFeeA : Option Nat
  MinFeeB : Option Nat
  MaxBlockBodySize : Option Nat
  MaxTxSize : Option Nat
  MaxBlockHeaderSize : Option Nat
  KeyDeposit : Option Nat
  PoolDeposit : Option Nat
  MaxEpoch : Option Nat
  NOpt : Option Nat
  A0 : Option cbor.Rat
  Rho : Option cbor.Rat
  Tau : Option cbor.Rat
  Decentralization : Option cbor.Rat
  Nonce : Option Nonce
  ProtocolVersion : Option ShelleyProtocolParametersProtocolVersion
  MinUtxoValue : Option Nat
  deriving DecidableEq

/-- Modelled from the spec: a rational of the genesis file
(`ledger/shelley/genesis.go` is not among the sources); `UpdateFromGenesis`
reads its `Rat`, which is taken to be set. -/
structure ShelleyGenesisRat where
  Rat : ℚ
  deriving DecidableEq

/-- Modelled from the spec: the protocol parameters of a Shelley genesis, with
the fields `UpdateFromGenesis` reads; a rational is `none` for a nil pointer. -/
structure ShelleyGenesisProtocolParams where
  MinFeeA : Nat
  MinFeeB : Nat
  MaxBlockBodySize : Nat
  MaxTxSize : Nat
  MaxBlockHeaderSize : Nat
  KeyDeposit : Nat
  PoolDeposit : Nat
  MaxEpoch : Nat
  NOpt : Nat
  A0 : Option ShelleyGenesisRat
  Rho : Option ShelleyGenesisRat
  Tau : Option ShelleyGenesisRat
  Decentralization : Option ShelleyGenesisRat
  ProtocolVersion : ShelleyProtocolParametersProtocolVersion
  MinUtxoValue : Nat
  deriving DecidableEq

/-- Modelled from the spec: `ShelleyGenesis`, of which `UpdateFromGenesis` reads
`ProtocolParameters` only. -/
structure ShelleyGenesis where
  ProtocolParameters : ShelleyGenesisProtocolParams
  deriving DecidableEq

/-- `(p *ShelleyProtocolParameters) Update` (pparams.go:45): one guarded
assignment per entry of the update, in source order. -/
def ShelleyProtocolParameters.Update (p : ShelleyProtocolParameters)
    (paramUpdate : ShelleyProtocolParameterUpdate) : ShelleyProtocolParameters :=
  let p := ifSet paramUpdate.MinFeeA (fun v p => { p with MinFeeA := v }) p
  let p := ifSet paramUpdate.MinFeeB (fun v p => { p with MinFeeB := v }) p
  let p := ifSet paramUpdate.MaxBlockBodySize (fun v p => { p with MaxBlockBodySize := v }) p
  let p := ifSet paramUpdate.MaxTxSize (fun v p => { p with MaxTxSize := v }) p
  let p := ifSet paramUpdate.MaxBlockHeaderSize (fun v p => { p with MaxBlockHeaderSize := v }) p
  let p := ifSet paramUpdate.KeyDeposit (fun v p => { p with KeyDeposit := v }) p
  let p := ifSet paramUpdate.PoolDeposit (fun v p => { p with PoolDeposit := v }) p
  let p := ifSet paramUpdate.MaxEpoch (fun v p => { p with MaxEpoch := v }) p
  let p := ifSet paramUpdate.NOpt (fun v p => { p with NOpt := v }) p
  let p := ifSet paramUpdate.A0 (fun v p => { p with A0 := some v }) p
  let p := ifSet paramUpdate.Rho (fun v p => { p with Rho := some v }) p
  let p := ifSet paramUpdate.Tau (fun v p => { p with Tau := some v }) p
  let p := ifSet paramUpdate.Decentralization (fun v p => { p with Decentralization := some v }) p
  let p := ifSet paramUpdate.ProtocolVersion
    (fun v p => { p with ProtocolMajor := v.Major, ProtocolMinor := v.Minor }) p
  let p := ifSet paramUpdate.Nonce (fun v p => { p with Nonce := some v }) p
  let p := ifSet paramUpdate.MinUtxoValue (fun v p => { p with MinUtxoValue := v }) p
  p

/-- `(p *ShelleyProtocolParameters) UpdateFromGenesis` (pparams.go:97): plain
assignments for the unsigned parameters, a guarded copy for each rational, and
no assignment to `Nonce` (the source leaves it as a TODO). -/
def ShelleyProtocolParameters.UpdateFromGenesis (p : ShelleyProtocolParameters)
    (genesis : ShelleyGenesis) : ShelleyProtocolParameters :=
  let genesisParams := genesis.ProtocolParameters
  let p := { p with MinFeeA := genesisParams.MinFeeA }
  let p := { p with MinFeeB := genesisParams.MinFeeB }
  let p := { p with MaxBlockBodySize := genesisParams.MaxBlockBodySize }
  let p := { p with MaxTxSize := genesisParams.MaxTxSize }
  let p := { p with MaxBlockHeaderSize := genesisParams.MaxBlockHeaderSize }
  let p := { p with KeyDeposit := genesisParams.KeyDeposit }
  let p := { p with PoolDeposit := genesisParams.PoolDeposit }
  let p := { p with MaxEpoch := genesisParams.MaxEpoch }
  let p := { p with NOpt := genesisParams.NOpt }
  let p := ifSet genesisParams.A0 (fun r p => { p with A0 := some { Rat := r.Rat } }) p
  let p := ifSet genesisParams.Rho (fun r p => { p with Rho := some { Rat := r.Rat } }) p
  let p := ifSet genesisParams.Tau (fun r p => { p with Tau := some { Rat := r.Rat } }) p
  let p := ifSet genesisParams.Decentralization
    (fun r p => { p with Decentralization := some { Rat := r.Rat } }) p
  let p := { p with ProtocolMajor := genesisParams.ProtocolVersion.Major }
  let p := { p with ProtocolMinor := genesisParams.ProtocolVersion.Minor }
  let p := { p with MinUtxoValue := genesisParams.MinUtxoValue }
  p

/-- Go conversion `uint(i)` of an `int` on a 64-bit platform: the same bits read
as unsigned. -/
def uintOfInt (i : Int) : Nat := (i % 2 ^ 64).toNat

/-- Errors returned by `Nonce.UnmarshalCBOR`: one passed on from the `cbor`
package, or "unsupported nonce type". -/
inductive Error where
  | cbor (e : cbor.Err)
  | unsupportedNonceType (nonceType : Int)

/-- `(n *Nonce) UnmarshalCBOR` (pparams.go:174). The result carries the nonce
as the call leaves it, next to the returned error. `DecodeGeneric` is
`cbor.DecodeGeneric(data, n)`, which works by reflection on the destination; its
effect on a `Nonce` is a parameter. The `fmt.Printf` on its error is left out. -/
def Nonce.UnmarshalCBOR (DecodeGeneric : List cbor.Byte → Nonce → Option cbor.Err × Nonce)
    (n : Nonce) (data : List cbor.Byte) : cbor.Outcome Error Nonce :=
  match cbor.DecodeIdFromList data with
  | .panic p => .panic p
  | .ret _ (some err) => .ret n (some (.cbor err))
  | .ret nonceType none =>
    let n := { n with «Type» := uintOfInt nonceType }
    if nonceType = NonceType0 then .ret n none
    else if nonceType = NonceType1 then
      match DecodeGeneric data n with
      | (some err, n) => .ret n (some (.cbor err))
      | (none, n) => .ret n none
    else .ret n (some (.unsupportedNonceType nonceType))

/-! ### Concrete records, used to instantiate the theorems -/

/-- A nonce of type 1 with a non-zero value. -/
def demoNonce : Nonce := { «Type» := 1, Value := ⟨List.replicate 32 0xab, by rfl⟩ }

/-- A parameter record with two rationals and a nonce set. -/
def demoParams : ShelleyProtocolParameters where
  MinFeeA := 44
  MinFeeB := 155381
  MaxBlockBodySize := 65536
  MaxTxSize := 16384
  MaxBlockHeaderSize := 1100
  KeyDeposit := 2000000
  PoolDeposit := 500000000
  MaxEpoch := 18
  NOpt := 150
  A0 := some ⟨3 / 10⟩
  Rho := some ⟨3 / 1000⟩
  Tau := none
  Decentralization := none
  Nonce := some demoNonce
  ProtocolMajor := 2
  ProtocolMinor := 0
  MinUtxoValue := 1000000

/-- An update with two entries present: `MinFeeA` and `ProtocolVersion`. -/
def demoUpdate : ShelleyProtocolParameterUpdate where
  MinFeeA := some 45
  MinFeeB := none
  MaxBlockBodySize := none
  MaxTxSize := none
  MaxBlockHeaderSize := none
  KeyDeposit := none
  PoolDeposit := none
  MaxEpoch := none
  NOpt := none
  A0 := none
  Rho := none
  Tau := none
  Decentralization := none
  Nonce := none
  ProtocolVersion := some ⟨3, 1⟩
  MinUtxoValue := none

/-- A genesis with `A0` and `Tau` set and the other rationals nil. -/
def demoGenesis : ShelleyGenesis where
  ProtocolParameters :=
    { MinFeeA := 1
      MinFeeB := 2
      MaxBlockBodySize := 3
      MaxTxSize := 4
      MaxBlockHeaderSize := 5
      KeyDeposit := 6
      PoolDeposit := 7
      MaxEpoch := 8
      NOpt := 9
      A0 := some ⟨1 / 2⟩
      Rho := none
      Tau := some ⟨1 / 5⟩
      Decentralization := none
      ProtocolVersion := ⟨2, 0⟩
      MinUtxoValue := 10 }

end shelley

namespace cbor

/-! ## The decoder does not depend on spare fuel -/

theorem map_some_of_imp {α β : Type} {a b : Option α} (g : α → β) {r : β}
    (hab : ∀ p, a = some p → b = some p) (h : a.map g = some r) : b.map g = some r := by
  cases a with
  | none => simp at h
  | some p => rw [hab p rfl]; exact h

theorem bind_some_of_imp {α β : Type} {a b : Option α} (g : α → Option β) {r : β}
    (hab : ∀ p, a = some p → b = some p) (h : a.bind g = some r) : b.bind g = some r := by
  cases a with
  | none => simp at h
  | some p => rw [hab p rfl]; exact h

theorem decode_fuel_succ (f : Nat) :
    (∀ bs r, decodeItem f bs = some r → decodeItem (f + 1) bs = some r) ∧
    (∀ n bs r, decodeSeq f n bs = some r → decodeSeq (f + 1) n bs = some r) ∧
    (∀ bs r, decodeUntilBreak f bs = some r → decodeUntilBreak (f + 1) bs = some r) := by
  induction f with
  | zero =>
    refine ⟨?_, ?_, ?_⟩
    · intro bs r h; rw [decodeItem.eq_1] at h; exact absurd h (by simp)
    · intro n bs r h
      cases n with
      | zero => rw [decodeSeq.eq_1] at h ⊢; exact h
      | succ n => rw [decodeSeq.eq_2] at h; exact absurd h (by simp)
    · intro bs r h; rw [decodeUntilBreak.eq_1] at h; exact absurd h (by simp)
  | succ f ih =>
    obtain ⟨ihI, ihS, ihB⟩ := ih
    refine ⟨?_, ?_, ?_⟩
    · intro bs r h
      cases bs with
      | nil => rw [decodeItem.eq_2] at h; exact absurd h (by simp)
      | cons ib bs =>
        rw [decodeItem.eq_3] at h ⊢
        cases hh : decodeHead ib bs with
        | none => rw [hh] at h; exact absurd h (by simp)
        | some b =>
          rw [hh] at h
          cases b with
          | leaf x r0 => exact h
          | arr n r0 => exact map_some_of_imp _ (ihS _ _) h
          | arrIndef r0 => exact map_some_of_imp _ (ihB _) h
          | mp n r0 => exact bind_some_of_imp _ (ihS _ _) h
          | mpIndef r0 => exact bind_some_of_imp _ (ihB _) h
          | tagged t r0 => exact map_some_of_imp _ (ihI _) h
    · intro n bs r h
      cases n with
      | zero => rw [decodeSeq.eq_1] at h ⊢; exact h
      | succ n =>
        rw [decodeSeq.eq_3] at h ⊢
        cases hx : decodeItem f bs with
        | none => rw [hx] at h; exact absurd h (by simp)
        | some p =>
          obtain ⟨x, r1⟩ := p
          rw [ihI _ _ hx]
          simp only [hx] at h ⊢
          cases hs : decodeSeq f n r1 with
          | none => simp only [hs] at h; exact absurd h (by simp)
          | some q =>
            rw [ihS _ _ _ hs]
            simp only [hs] at h ⊢
            exact h
    · intro bs r h
      cases bs with
      | nil => rw [decodeUntilBreak.eq_2] at h; exact absurd h (by simp)
      | cons ib bs =>
        rw [decodeUntilBreak.eq_3] at h ⊢
        by_cases hb : ib.val = 255
        · rw [if_pos hb] at h ⊢; exact h
        · rw [if_neg hb] at h ⊢
          cases hx : decodeItem f (ib :: bs) with
          | none => rw [hx] at h; exact absurd h (by simp)
          | some p =>
            obtain ⟨x, r1⟩ := p
            rw [ihI _ _ hx]
            simp only [hx] at h ⊢
            cases hs : decodeUntilBreak f r1 with
            | none => simp only [hs] at h; exact absurd h (by simp)
            | some q =>
              rw [ihB _ _ hs]
              simp only [hs] at h ⊢
              exact h

theorem decodeItem_fuel_le {f g : Nat} (hfg : f ≤ g) {bs : List Byte} {r : Item × List Byte}
    (h : decodeItem f bs = some r) : decodeItem g bs = some r := by
  induction hfg with
  | refl => exact h
  | step _ ih => exact (decode_fuel_succ _).1 _ _ ih

theorem decodeSeq_fuel_le {f g : Nat} (hfg : f ≤ g) {n : Nat} {bs : List Byte}
    {r : List (Item × RawMessage) × List Byte}
    (h : decodeSeq f n bs = some r) : decodeSeq g n bs = some r := by
  induction hfg with
  | refl => exact h
  | step _ ih => exact (decode_fuel_succ _).2.1 _ _ _ ih

theorem decodeUntilBreak_fuel_le {f g : Nat} (hfg : f ≤ g) {bs : List Byte}
    {r : List (Item × RawMessage) × List Byte}
    (h : decodeUntilBreak f bs = some r) : decodeUntilBreak g bs = some r := by
  induction hfg with
  | refl => exact h
  | step _ ih => exact (decode_fuel_succ _).2.2 _ _ ih


/-! ## How much input an item consumes -/

theorem takeN_length {n : Nat} {bs a r : List Byte} (h : takeN n bs = some (a, r)) :
    r.length + n = bs.length ∧ a.length = n := by
  unfold takeN at h
  split_ifs at h with hn
  simp only [Option.some.injEq, Prod.mk.injEq] at h
  obtain ⟨rfl, rfl⟩ := h
  simp only [List.length_drop, List.length_take]
  omega

theorem readArg_length {ai v : Nat} {bs r : List Byte} (h : readArg ai bs = some (v, r)) :
    r.length ≤ bs.length := by
  unfold readArg at h
  split_ifs at h
  · simp only [Option.some.injEq, Prod.mk.injEq] at h
    rw [← h.2]
  all_goals
    simp only [Option.map_eq_some', Prod.mk.injEq, Prod.exists] at h
    obtain ⟨a, b, hab, -, rfl⟩ := h
    have := (takeN_length hab).1
    omega

theorem decodeChunks_length (mt : Nat) :
    ∀ (f : Nat) (bs c r : List Byte), decodeChunks mt f bs = some (c, r) → r.length < bs.length := by
  intro f
  induction f with
  | zero => intro bs c r h; simp [decodeChunks] at h
  | succ f ih =>
    intro bs c r h
    cases bs with
    | nil => simp [decodeChunks] at h
    | cons ib bs =>
      rw [decodeChunks] at h
      split_ifs at h with h1 h2
      · simp only [Option.some.injEq, Prod.mk.injEq] at h
        rw [← h.2]; simp
      · cases hra : readArg (addInfo ib) bs with
        | none => simp [hra] at h
        | some p =>
          obtain ⟨n, r1⟩ := p
          simp only [hra] at h
          cases ht : takeN n r1 with
          | none => simp [ht] at h
          | some q =>
            obtain ⟨chunk, r2⟩ := q
            simp only [ht] at h
            cases hd : decodeChunks mt f r2 with
            | none => simp [hd] at h
            | some w =>
              obtain ⟨more, r3⟩ := w
              simp only [hd, Option.some.injEq, Prod.mk.injEq] at h
              have h3 := ih _ _ _ hd
              have h2 := (takeN_length ht).1
              have h1 := readArg_length hra
              rw [← h.2]
              simp only [List.length_cons]
              omega

theorem decodeHead_length {ib : Byte} {bs : List Byte} {b : Body}
    (h : decodeHead ib bs = some b) : b.rest.length ≤ bs.length := by
  unfold decodeHead at h
  by_cases h31 : addInfo ib = 31
  · rw [if_pos h31] at h
    split_ifs at h
    · simp only [Option.map_eq_some', Prod.exists] at h
      obtain ⟨c, r, hc, rfl⟩ := h
      exact Nat.le_of_lt (decodeChunks_length _ _ _ _ _ hc)
    · simp only [Option.map_eq_some', Prod.exists] at h
      obtain ⟨c, r, hc, rfl⟩ := h
      exact Nat.le_of_lt (decodeChunks_length _ _ _ _ _ hc)
    · simp only [Option.some.injEq] at h; rw [← h]; exact Nat.le_refl _
    · simp only [Option.some.injEq] at h; rw [← h]; exact Nat.le_refl _
  · rw [if_neg h31] at h
    cases hra : readArg (addInfo ib) bs with
    | none => simp [hra] at h
    | some p =>
      obtain ⟨v, r⟩ := p
      have hr := readArg_length hra
      simp only [hra] at h
      split_ifs at h
      · simp only [Option.some.injEq] at h; rw [← h]; exact hr
      · simp only [Option.some.injEq] at h; rw [← h]; exact hr
      · simp only [Option.map_eq_some', Prod.exists] at h
        obtain ⟨c, r2, hc, rfl⟩ := h
        have := (takeN_length hc).1
        simp only [Body.rest]; omega
      · simp only [Option.map_eq_some', Prod.exists] at h
        obtain ⟨c, r2, hc, rfl⟩ := h
        have := (takeN_length hc).1
        simp only [Body.rest]; omega
      · simp only [Option.some.injEq] at h; rw [← h]; exact hr
      · simp only [Option.some.injEq] at h; rw [← h]; exact hr
      · simp only [Option.some.injEq] at h; rw [← h]; exact hr
      · simp only [Option.map_eq_some', Prod.exists] at h
        obtain ⟨c, r2, hc, rfl⟩ := h
        unfold decodePrimitive at hc
        split_ifs at hc
        all_goals
          simp only [Option.some.injEq, Prod.mk.injEq] at hc
          rw [← hc.2]; exact hr


theorem decodeChunks_fuel_succ (mt : Nat) :
    ∀ (f : Nat) (bs : List Byte) (r : List Byte × List Byte),
      decodeChunks mt f bs = some r → decodeChunks mt (f + 1) bs = some r := by
  intro f
  induction f with
  | zero => intro bs r h; simp [decodeChunks] at h
  | succ f ih =>
    intro bs r h
    cases bs with
    | nil => simp [decodeChunks] at h
    | cons ib bs =>
      rw [decodeChunks] at h ⊢
      by_cases hb : ib.val = 255
      · rw [if_pos hb] at h ⊢; exact h
      · rw [if_neg hb] at h ⊢
        by_cases hm : majorType ib = mt ∧ addInfo ib ≠ 31
        · rw [if_pos hm] at h ⊢
          cases hra : readArg (addInfo ib) bs with
          | none => simp [hra] at h
          | some p =>
            obtain ⟨n, r1⟩ := p
            simp only [hra] at h ⊢
            cases ht : takeN n r1 with
            | none => simp [ht] at h
            | some q =>
              obtain ⟨chunk, r2⟩ := q
              simp only [ht] at h ⊢
              cases hd : decodeChunks mt f r2 with
              | none => simp [hd] at h
              | some w =>
                rw [ih _ _ hd]
                simp only [hd] at h
                exact h
        · rw [if_neg hm] at h; exact absurd h (by simp)

theorem decodeChunks_fuel_le (mt : Nat) {f g : Nat} (hfg : f ≤ g) {bs : List Byte}
    {r : List Byte × List Byte} (h : decodeChunks mt f bs = some r) :
    decodeChunks mt g bs = some r := by
  induction hfg with
  | refl => exact h
  | step _ ih => exact decodeChunks_fuel_succ mt _ _ _ ih

/-- The chunks of an indefinite-length string never need more fuel than there
are bytes: `decodeHead` runs them with exactly that much. -/
theorem decodeChunks_fuel_enough (mt : Nat) :
    ∀ (f : Nat) (bs : List Byte) (r : List Byte × List Byte),
      decodeChunks mt f bs = some r → decodeChunks mt bs.length bs = some r := by
  intro f
  induction f with
  | zero => intro bs r h; simp [decodeChunks] at h
  | succ f ih =>
    intro bs r h
    cases bs with
    | nil => simp [decodeChunks] at h
    | cons ib bs =>
      rw [decodeChunks] at h
      rw [List.length_cons, decodeChunks]
      by_cases hb : ib.val = 255
      · rw [if_pos hb] at h ⊢; exact h
      · rw [if_neg hb] at h ⊢
        by_cases hm : majorType ib = mt ∧ addInfo ib ≠ 31
        · rw [if_pos hm] at h ⊢
          cases hra : readArg (addInfo ib) bs with
          | none => simp [hra] at h
          | some p =>
            obtain ⟨n, r1⟩ := p
            simp only [hra] at h ⊢
            cases ht : takeN n r1 with
            | none => simp [ht] at h
            | some q =>
              obtain ⟨chunk, r2⟩ := q
              simp only [ht] at h ⊢
              cases hd : decodeChunks mt f r2 with
              | none => simp [hd] at h
              | some w =>
                have hlen : r2.length ≤ bs.length := by
                  have h1 := readArg_length hra
                  have h2 := (takeN_length ht).1
                  omega
                rw [decodeChunks_fuel_le mt hlen (ih _ _ hd)]
                simp only [hd] at h
                exact h
        · rw [if_neg hm] at h; exact absurd h (by simp)

theorem decode_consumes (f : Nat) :
    (∀ bs x r, decodeItem f bs = some (x, r) →
      r.length < bs.length ∧ decodeItem (2 * (bs.length - r.length)) bs = some (x, r)) ∧
    (∀ n bs ps r, decodeSeq f n bs = some (ps, r) →
      r.length ≤ bs.length ∧ decodeSeq (2 * (bs.length - r.length) + 1) n bs = some (ps, r)) ∧
    (∀ bs ps r, decodeUntilBreak f bs = some (ps, r) →
      r.length < bs.length ∧
        decodeUntilBreak (2 * (bs.length - r.length) + 1) bs = some (ps, r)) := by
  induction f with
  | zero =>
    refine ⟨?_, ?_, ?_⟩
    · intro bs x r h; rw [decodeItem.eq_1] at h; exact absurd h (by simp)
    · intro n bs ps r h
      cases n with
      | zero =>
        rw [decodeSeq.eq_1] at h ⊢
        simp only [Option.some.injEq, Prod.mk.injEq] at h
        obtain ⟨rfl, rfl⟩ := h
        exact ⟨Nat.le_refl _, rfl⟩
      | succ n => rw [decodeSeq.eq_2] at h; exact absurd h (by simp)
    · intro bs ps r h; rw [decodeUntilBreak.eq_1] at h; exact absurd h (by simp)
  | succ f ih =>
    obtain ⟨ihI, ihS, ihB⟩ := ih
    refine ⟨?_, ?_, ?_⟩
    · intro bs x r h
      cases bs with
      | nil => rw [decodeItem.eq_2] at h; exact absurd h (by simp)
      | cons ib bs =>
        rw [decodeItem.eq_3] at h
        cases hh : decodeHead ib bs with
        | none => rw [hh] at h; exact absurd h (by simp)
        | some b =>
          have hlen := decodeHead_length hh
          rw [hh] at h
          cases b with
          | leaf x0 r0 =>
            simp only [Option.some.injEq, Prod.mk.injEq] at h
            obtain ⟨rfl, rfl⟩ := h
            simp only [Body.rest] at hlen
            have hlt : r0.length < (ib :: bs).length := by simp only [List.length_cons]; omega
            obtain ⟨k, hk⟩ : ∃ k, 2 * ((ib :: bs).length - r0.length) = k + 1 :=
              ⟨2 * ((ib :: bs).length - r0.length) - 1, by omega⟩
            refine ⟨hlt, ?_⟩
            rw [hk, decodeItem.eq_3, hh]
          | arr n r0 =>
            simp only [Option.map_eq_some', Prod.mk.injEq, Prod.exists] at h
            obtain ⟨ps, r1, hp, rfl, rfl⟩ := h
            simp only [Body.rest] at hlen
            obtain ⟨h1, h2⟩ := ihS _ _ _ _ hp
            have hlt : r1.length < (ib :: bs).length := by simp only [List.length_cons]; omega
            refine ⟨hlt, ?_⟩
            obtain ⟨k, hk, hk2⟩ : ∃ k, 2 * ((ib :: bs).length - r1.length) = k + 1 ∧
                2 * (r0.length - r1.length) + 1 ≤ k :=
              ⟨2 * ((ib :: bs).length - r1.length) - 1, by omega, by
                simp only [List.length_cons]; omega⟩
            rw [hk, decodeItem.eq_3, hh]
            simp only [decodeSeq_fuel_le hk2 h2, Option.map_some']
          | arrIndef r0 =>
            simp only [Option.map_eq_some', Prod.mk.injEq, Prod.exists] at h
            obtain ⟨ps, r1, hp, rfl, rfl⟩ := h
            simp only [Body.rest] at hlen
            obtain ⟨h1, h2⟩ := ihB _ _ _ hp
            have hlt : r1.length < (ib :: bs).length := by simp only [List.length_cons]; omega
            refine ⟨hlt, ?_⟩
            obtain ⟨k, hk, hk2⟩ : ∃ k, 2 * ((ib :: bs).length - r1.length) = k + 1 ∧
                2 * (r0.length - r1.length) + 1 ≤ k :=
              ⟨2 * ((ib :: bs).length - r1.length) - 1, by omega, by
                simp only [List.length_cons]; omega⟩
            rw [hk, decodeItem.eq_3, hh]
            simp only [decodeUntilBreak_fuel_le hk2 h2, Option.map_some']
          | mp n r0 =>
            simp only [Option.bind_eq_some, Prod.exists] at h
            obtain ⟨ps, r1, hp, hq⟩ := h
            simp only [Option.map_eq_some', Prod.mk.injEq] at hq
            obtain ⟨kvs, hkv, rfl, rfl⟩ := hq
            simp only [Body.rest] at hlen
            obtain ⟨h1, h2⟩ := ihS _ _ _ _ hp
            have hlt : r1.length < (ib :: bs).length := by simp only [List.length_cons]; omega
            refine ⟨hlt, ?_⟩
            obtain ⟨k, hk, hk2⟩ : ∃ k, 2 * ((ib :: bs).length - r1.length) = k + 1 ∧
                2 * (r0.length - r1.length) + 1 ≤ k :=
              ⟨2 * ((ib :: bs).length - r1.length) - 1, by omega, by
                simp only [List.length_cons]; omega⟩
            rw [hk, decodeItem.eq_3, hh]
            simp only [decodeSeq_fuel_le hk2 h2, Option.some_bind, hkv, Option.map_some']
          | mpIndef r0 =>
            simp only [Option.bind_eq_some, Prod.exists] at h
            obtain ⟨ps, r1, hp, hq⟩ := h
            simp only [Option.map_eq_some', Prod.mk.injEq] at hq
            obtain ⟨kvs, hkv, rfl, rfl⟩ := hq
            simp only [Body.rest] at hlen
            obtain ⟨h1, h2⟩ := ihB _ _ _ hp
            have hlt : r1.length < (ib :: bs).length := by simp only [List.length_cons]; omega
            refine ⟨hlt, ?_⟩
            obtain ⟨k, hk, hk2⟩ : ∃ k, 2 * ((ib :: bs).length - r1.length) = k + 1 ∧
                2 * (r0.length - r1.length) + 1 ≤ k :=
              ⟨2 * ((ib :: bs).length - r1.length) - 1, by omega, by
                simp only [List.length_cons]; omega⟩
            rw [hk, decodeItem.eq_3, hh]
            simp only [decodeUntilBreak_fuel_le hk2 h2, Option.some_bind, hkv, Option.map_some']
          | tagged t r0 =>
            simp only [Option.map_eq_some', Prod.mk.injEq, Prod.exists] at h
            obtain ⟨y, r1, hp, rfl, rfl⟩ := h
            simp only [Body.rest] at hlen
            obtain ⟨h1, h2⟩ := ihI _ _ _ hp
            have hlt : r1.length < (ib :: bs).length := by simp only [List.length_cons]; omega
            refine ⟨hlt, ?_⟩
            obtain ⟨k, hk, hk2⟩ : ∃ k, 2 * ((ib :: bs).length - r1.length) = k + 1 ∧
                2 * (r0.length - r1.length) ≤ k :=
              ⟨2 * ((ib :: bs).length - r1.length) - 1, by omega, by
                simp only [List.length_cons]; omega⟩
            rw [hk, decodeItem.eq_3, hh]
            simp only [decodeItem_fuel_le hk2 h2, Option.map_some']
    · intro n bs ps r h
      cases n with
      | zero =>
        rw [decodeSeq.eq_1] at h ⊢
        simp only [Option.some.injEq, Prod.mk.injEq] at h
        obtain ⟨rfl, rfl⟩ := h
        exact ⟨Nat.le_refl _, rfl⟩
      | succ n =>
        rw [decodeSeq.eq_3] at h
        cases hx : decodeItem f bs with
        | none => simp only [hx] at h; exact absurd h (by simp)
        | some p =>
          obtain ⟨x, r1⟩ := p
          simp only [hx] at h
          cases hs : decodeSeq f n r1 with
          | none => simp only [hs] at h; exact absurd h (by simp)
          | some q =>
            obtain ⟨qs, r2⟩ := q
            simp only [hs, Option.some.injEq, Prod.mk.injEq] at h
            obtain ⟨rfl, rfl⟩ := h
            obtain ⟨a1, a2⟩ := ihI _ _ _ hx
            obtain ⟨b1, b2⟩ := ihS _ _ _ _ hs
            refine ⟨by omega, ?_⟩
            rw [decodeSeq.eq_3]
            have e1 : 2 * (bs.length - r1.length) ≤ 2 * (bs.length - r2.length) := by omega
            have e2 : 2 * (r1.length - r2.length) + 1 ≤ 2 * (bs.length - r2.length) := by omega
            simp only [decodeItem_fuel_le e1 a2, decodeSeq_fuel_le e2 b2]
    · intro bs ps r h
      cases bs with
      | nil => rw [decodeUntilBreak.eq_2] at h; exact absurd h (by simp)
      | cons ib bs =>
        rw [decodeUntilBreak.eq_3] at h
        by_cases hb : ib.val = 255
        · rw [if_pos hb] at h
          simp only [Option.some.injEq, Prod.mk.injEq] at h
          obtain ⟨rfl, rfl⟩ := h
          refine ⟨by simp, ?_⟩
          rw [decodeUntilBreak.eq_3, if_pos hb]
        · rw [if_neg hb] at h
          cases hx : decodeItem f (ib :: bs) with
          | none => simp only [hx] at h; exact absurd h (by simp)
          | some p =>
            obtain ⟨x, r1⟩ := p
            simp only [hx] at h
            cases hs : decodeUntilBreak f r1 with
            | none => simp only [hs] at h; exact absurd h (by simp)
            | some q =>
              obtain ⟨qs, r2⟩ := q
              simp only [hs, Option.some.injEq, Prod.mk.injEq] at h
              obtain ⟨rfl, rfl⟩ := h
              obtain ⟨a1, a2⟩ := ihI _ _ _ hx
              obtain ⟨b1, b2⟩ := ihB _ _ _ hs
              refine ⟨by omega, ?_⟩
              rw [decodeUntilBreak.eq_3, if_neg hb]
              have e1 : 2 * ((ib :: bs).length - r1.length) ≤
                  2 * ((ib :: bs).length - r2.length) := by omega
              have e2 : 2 * (r1.length - r2.length) + 1 ≤
                  2 * ((ib :: bs).length - r2.length) := by omega
              simp only [decodeItem_fuel_le e1 a2, decodeUntilBreak_fuel_le e2 b2]

/-- Whatever fuel decodes an item, the fuel `Decode` uses decodes it too. -/
theorem decodeItem_fuel_enough {f : Nat} {bs : List Byte} {r : Item × List Byte}
    (h : decodeItem f bs = some r) : parse bs = some r := by
  obtain ⟨x, rest⟩ := r
  obtain ⟨h1, h2⟩ := (decode_consumes f).1 _ _ _ h
  exact decodeItem_fuel_le (by unfold fuelFor; omega) h2

/-! ## Shape of heads and of decoded arrays -/

theorem decodeHead_arr {ib : Byte} {bs r : List Byte} {n : Nat}
    (h : decodeHead ib bs = some (Body.arr n r)) :
    majorType ib = 4 ∧ addInfo ib ≠ 31 ∧ readArg (addInfo ib) bs = some (n, r) := by
  unfold decodeHead at h
  by_cases h31 : addInfo ib = 31
  · rw [if_pos h31] at h
    split_ifs at h <;> simp at h
  · rw [if_neg h31] at h
    cases hra : readArg (addInfo ib) bs with
    | none => simp [hra] at h
    | some p =>
      obtain ⟨v, r1⟩ := p
      simp only [hra] at h
      split_ifs at h with h0 h1 h2 h3 h4 <;> simp at h
      obtain ⟨rfl, rfl⟩ := h
      exact ⟨h4, h31, rfl⟩

theorem decodeHead_arrIndef {ib : Byte} {bs r : List Byte}
    (h : decodeHead ib bs = some (Body.arrIndef r)) :
    majorType ib = 4 ∧ addInfo ib = 31 ∧ r = bs := by
  unfold decodeHead at h
  by_cases h31 : addInfo ib = 31
  · rw [if_pos h31] at h
    split_ifs at h with h2 h3 h4 <;> simp at h
    exact ⟨h4, h31, h.symm⟩
  · rw [if_neg h31] at h
    cases hra : readArg (addInfo ib) bs with
    | none => simp [hra] at h
    | some p =>
      obtain ⟨v, r1⟩ := p
      simp only [hra] at h
      split_ifs at h <;> simp at h

/-- A head of major type 4 announces an array. -/
theorem decodeHead_of_major4 {ib : Byte} {bs : List Byte} {b : Body} (h4 : majorType ib = 4)
    (h : decodeHead ib bs = some b) : (∃ n r, b = Body.arr n r) ∨ ∃ r, b = Body.arrIndef r := by
  unfold decodeHead at h
  by_cases h31 : addInfo ib = 31
  · rw [if_pos h31] at h
    simp only [h4] at h
    simp at h
    exact Or.inr ⟨_, h.symm⟩
  · rw [if_neg h31] at h
    cases hra : readArg (addInfo ib) bs with
    | none => simp [hra] at h
    | some p =>
      obtain ⟨v, r1⟩ := p
      simp only [hra, h4] at h
      simp at h
      exact Or.inl ⟨_, _, h.symm⟩

/-- A complete item read off a head is never an array. -/
theorem decodeHead_leaf_ne_array {ib : Byte} {bs r : List Byte} {x : Item}
    (h : decodeHead ib bs = some (Body.leaf x r)) (xs : List Item) : x ≠ Item.array xs := by
  unfold decodeHead at h
  by_cases h31 : addInfo ib = 31
  · rw [if_pos h31] at h
    split_ifs at h <;> simp at h
    all_goals
      obtain ⟨_, _, _, rfl, _⟩ := h
      simp
  · rw [if_neg h31] at h
    cases hra : readArg (addInfo ib) bs with
    | none => simp [hra] at h
    | some p =>
      obtain ⟨v, r1⟩ := p
      simp only [hra] at h
      split_ifs at h <;> simp at h
      · rw [← h.1]; simp
      · rw [← h.1]; simp
      · obtain ⟨_, _, _, rfl, _⟩ := h; simp
      · obtain ⟨_, _, _, rfl, _⟩ := h; simp
      · unfold decodePrimitive at h
        split_ifs at h <;> simp at h <;> (rw [← h.1]; simp)

/-- Major type 0 is exactly the unsigned integers, and an initial byte up to 23
is the integer itself. -/
theorem decodeHead_leaf_uint {ib : Byte} {bs r : List Byte} {x : Item}
    (h : decodeHead ib bs = some (Body.leaf x r)) :
    (majorType ib = 0 ↔ ∃ v, x = Item.uint v) ∧
      (∀ v, x = Item.uint v → ib.val ≤ 23 → v = ib.val) := by
  unfold decodeHead at h
  by_cases h31 : addInfo ib = 31
  · rw [if_pos h31] at h
    split_ifs at h with h2 h3 h4 h5 <;> simp at h
    · obtain ⟨_, _, _, rfl, _⟩ := h
      simp [h2]
    · obtain ⟨_, _, _, rfl, _⟩ := h
      simp [h3]
  · rw [if_neg h31] at h
    cases hra : readArg (addInfo ib) bs with
    | none => simp [hra] at h
    | some p =>
      obtain ⟨v, r1⟩ := p
      simp only [hra] at h
      split_ifs at h with h0 h1 h2 h3 h4 h5 h6 <;> simp at h
      · obtain ⟨rfl, rfl⟩ := h
        refine ⟨by simp [h0], ?_⟩
        intro w hw hle
        simp only [Item.uint.injEq] at hw
        subst hw
        unfold readArg at hra
        unfold addInfo at hra
        have : ib.val % 32 < 24 := by omega
        rw [if_pos this] at hra
        simp only [Option.some.injEq, Prod.mk.injEq] at hra
        omega
      · rw [← h.1]; simp [h0]
      · obtain ⟨_, _, _, rfl, _⟩ := h; simp [h0]
      · obtain ⟨_, _, _, rfl, _⟩ := h; simp [h0]
      · unfold decodePrimitive at h
        split_ifs at h <;> simp at h <;> (rw [← h.1]; simp [h0])

theorem decodeSeq_length :
    ∀ (n f : Nat) (bs : List Byte) (ps : List (Item × RawMessage)) (r : List Byte),
      decodeSeq f n bs = some (ps, r) → ps.length = n := by
  intro n
  induction n with
  | zero =>
    intro f bs ps r h
    rw [decodeSeq.eq_1] at h
    simp only [Option.some.injEq, Prod.mk.injEq] at h
    rw [← h.1]; rfl
  | succ n ih =>
    intro f bs ps r h
    cases f with
    | zero => rw [decodeSeq.eq_2] at h; exact absurd h (by simp)
    | succ f =>
      rw [decodeSeq.eq_3] at h
      cases hx : decodeItem f bs with
      | none => simp only [hx] at h; exact absurd h (by simp)
      | some p =>
        obtain ⟨x, r1⟩ := p
        simp only [hx] at h
        cases hs : decodeSeq f n r1 with
        | none => simp only [hs] at h; exact absurd h (by simp)
        | some q =>
          obtain ⟨qs, r2⟩ := q
          simp only [hs, Option.some.injEq, Prod.mk.injEq] at h
          rw [← h.1, List.length_cons, ih _ _ _ _ hs]

/-- A head of major type 0 is a complete item. -/
theorem decodeHead_of_major0 {ib : Byte} {bs : List Byte} {b : Body} (h0 : majorType ib = 0)
    (h : decodeHead ib bs = some b) : ∃ x r, b = Body.leaf x r := by
  unfold decodeHead at h
  by_cases h31 : addInfo ib = 31
  · rw [if_pos h31] at h
    simp [h0] at h
  · rw [if_neg h31] at h
    cases hra : readArg (addInfo ib) bs with
    | none => simp [hra] at h
    | some p =>
      obtain ⟨v, r1⟩ := p
      simp only [hra, h0] at h
      simp at h
      exact ⟨_, _, h.symm⟩

/-- An item decoded as an array starts with a byte of major type 4 and its
elements are those of the element walk. -/
theorem decodeItem_array {f : Nat} {bs rest : List Byte} {xs : List Item}
    (h : decodeItem f bs = some (Item.array xs, rest)) :
    ∃ ib tl ps g, bs = ib :: tl ∧ f = g + 1 ∧ majorType ib = 4 ∧
      decodeElems g bs = some (ps, rest) ∧ xs = ps.map Prod.fst := by
  cases f with
  | zero => rw [decodeItem.eq_1] at h; exact absurd h (by simp)
  | succ g =>
    cases bs with
    | nil => rw [decodeItem.eq_2] at h; exact absurd h (by simp)
    | cons ib tl =>
      rw [decodeItem.eq_3] at h
      cases hh : decodeHead ib tl with
      | none => rw [hh] at h; exact absurd h (by simp)
      | some b =>
        rw [hh] at h
        cases b with
        | leaf x r0 =>
          simp only [Option.some.injEq, Prod.mk.injEq] at h
          exact absurd h.1 (decodeHead_leaf_ne_array hh xs)
        | arr n r0 =>
          simp only [Option.map_eq_some', Prod.mk.injEq, Item.array.injEq, Prod.exists] at h
          obtain ⟨ps, r1, hp, rfl, rfl⟩ := h
          refine ⟨ib, tl, ps, g, rfl, rfl, (decodeHead_arr hh).1, ?_, rfl⟩
          simp only [decodeElems, hh, hp]
        | arrIndef r0 =>
          simp only [Option.map_eq_some', Prod.mk.injEq, Item.array.injEq, Prod.exists] at h
          obtain ⟨ps, r1, hp, rfl, rfl⟩ := h
          refine ⟨ib, tl, ps, g, rfl, rfl, (decodeHead_arrIndef hh).1, ?_, rfl⟩
          simp only [decodeElems, hh, hp]
        | mp n r0 =>
          simp only [Option.bind_eq_some, Option.map_eq_some', Prod.mk.injEq, Prod.exists] at h
          obtain ⟨_, _, _, _, _, hx, _⟩ := h
          exact absurd hx (by simp)
        | mpIndef r0 =>
          simp only [Option.bind_eq_some, Option.map_eq_some', Prod.mk.injEq, Prod.exists] at h
          obtain ⟨_, _, _, _, _, hx, _⟩ := h
          exact absurd hx (by simp)
        | tagged t r0 =>
          simp only [Option.map_eq_some', Prod.mk.injEq, Prod.exists] at h
          obtain ⟨_, _, _, hx, _⟩ := h
          exact absurd hx (by simp)

/-- The element walk of an array is what `decodeItem` builds the array from. -/
theorem decodeItem_of_decodeElems {g : Nat} {bs rest : List Byte}
    {ps : List (Item × RawMessage)} (h : decodeElems g bs = some (ps, rest)) :
    decodeItem (g + 1) bs = some (Item.array (ps.map Prod.fst), rest) := by
  cases bs with
  | nil => simp [decodeElems] at h
  | cons ib tl =>
    rw [decodeItem.eq_3]
    unfold decodeElems at h
    cases hh : decodeHead ib tl with
    | none => simp [hh] at h
    | some b =>
      cases b with
      | arr n r0 => simp only [hh] at h; simp only [h, Option.map_some']
      | arrIndef r0 => simp only [hh] at h; simp only [h, Option.map_some']
      | leaf x r0 => simp [hh] at h
      | mp n r0 => simp [hh] at h
      | mpIndef r0 => simp [hh] at h
      | tagged t r0 => simp [hh] at h

/-- The first byte of an item tells whether it is an unsigned integer, and is
that integer when it is at most 23. -/
theorem decodeItem_first_byte {f : Nat} {ib : Byte} {tl rest : List Byte} {x : Item}
    (h : decodeItem f (ib :: tl) = some (x, rest)) :
    (majorType ib = 0 ↔ ∃ v, x = Item.uint v) ∧
      (∀ v, x = Item.uint v → ib.val ≤ 23 → v = ib.val) := by
  cases f with
  | zero => rw [decodeItem.eq_1] at h; exact absurd h (by simp)
  | succ g =>
    rw [decodeItem.eq_3] at h
    cases hh : decodeHead ib tl with
    | none => rw [hh] at h; exact absurd h (by simp)
    | some b =>
      rw [hh] at h
      have hm0 : majorType ib = 0 → ∃ y r, b = Body.leaf y r := fun h0 =>
        decodeHead_of_major0 h0 hh
      cases b with
      | leaf y r0 =>
        simp only [Option.some.injEq, Prod.mk.injEq] at h
        obtain ⟨rfl, rfl⟩ := h
        exact decodeHead_leaf_uint hh
      | arr n r0 =>
        simp only [Option.map_eq_some', Prod.mk.injEq, Prod.exists] at h
        obtain ⟨_, _, _, rfl, _⟩ := h
        refine ⟨⟨fun h0 => ?_, fun hv => ?_⟩, fun v hv => ?_⟩
        · obtain ⟨_, _, hb⟩ := hm0 h0; exact absurd hb (by simp)
        · obtain ⟨_, hv⟩ := hv; exact absurd hv (by simp)
        · exact absurd hv (by simp)
      | arrIndef r0 =>
        simp only [Option.map_eq_some', Prod.mk.injEq, Prod.exists] at h
        obtain ⟨_, _, _, rfl, _⟩ := h
        refine ⟨⟨fun h0 => ?_, fun hv => ?_⟩, fun v hv => ?_⟩
        · obtain ⟨_, _, hb⟩ := hm0 h0; exact absurd hb (by simp)
        · obtain ⟨_, hv⟩ := hv; exact absurd hv (by simp)
        · exact absurd hv (by simp)
      | mp n r0 =>
        simp only [Option.bind_eq_some, Option.map_eq_some', Prod.mk.injEq, Prod.exists] at h
        obtain ⟨_, _, _, _, _, rfl, _⟩ := h
        refine ⟨⟨fun h0 => ?_, fun hv => ?_⟩, fun v hv => ?_⟩
        · obtain ⟨_, _, hb⟩ := hm0 h0; exact absurd hb (by simp)
        · obtain ⟨_, hv⟩ := hv; exact absurd hv (by simp)
        · exact absurd hv (by simp)
      | mpIndef r0 =>
        simp only [Option.bind_eq_some, Option.map_eq_some', Prod.mk.injEq, Prod.exists] at h
        obtain ⟨_, _, _, _, _, rfl, _⟩ := h
        refine ⟨⟨fun h0 => ?_, fun hv => ?_⟩, fun v hv => ?_⟩
        · obtain ⟨_, _, hb⟩ := hm0 h0; exact absurd hb (by simp)
        · obtain ⟨_, hv⟩ := hv; exact absurd hv (by simp)
        · exact absurd hv (by simp)
      | tagged t r0 =>
        simp only [Option.map_eq_some', Prod.mk.injEq, Prod.exists] at h
        obtain ⟨_, _, _, rfl, _⟩ := h
        refine ⟨⟨fun h0 => ?_, fun hv => ?_⟩, fun v hv => ?_⟩
        · obtain ⟨_, _, hb⟩ := hm0 h0; exact absurd hb (by simp)
        · obtain ⟨_, hv⟩ := hv; exact absurd hv (by simp)
        · exact absurd hv (by simp)

/-- With a one-byte header the walk yields as many elements as the header says. -/
theorem decodeElems_length_short {g : Nat} {ib : Byte} {tl rest : List Byte}
    {ps : List (Item × RawMessage)} (h : decodeElems g (ib :: tl) = some (ps, rest))
    (hai : addInfo ib < 24) : ps.length = addInfo ib := by
  unfold decodeElems at h
  cases hh : decodeHead ib tl with
  | none => simp [hh] at h
  | some b =>
    cases b with
    | arr n r0 =>
      simp only [hh] at h
      obtain ⟨-, -, hra⟩ := decodeHead_arr hh
      unfold readArg at hra
      rw [if_pos hai] at hra
      simp only [Option.some.injEq, Prod.mk.injEq] at hra
      rw [decodeSeq_length _ _ _ _ _ h, ← hra.1]
    | arrIndef r0 =>
      obtain ⟨-, h31, -⟩ := decodeHead_arrIndef hh
      omega
    | leaf x r0 => simp [hh] at h
    | mp n r0 => simp [hh] at h
    | mpIndef r0 => simp [hh] at h
    | tagged t r0 => simp [hh] at h

/-- Unless the header spends extra bytes on the length (additional information
24..27), element 0 is the item that starts at the second byte. -/
theorem decodeElems_first {g : Nat} {ib : Byte} {tl rest : List Byte} {p : Item × RawMessage}
    {ps : List (Item × RawMessage)} (h : decodeElems g (ib :: tl) = some (p :: ps, rest))
    (hai : ¬ (24 ≤ addInfo ib ∧ addInfo ib ≤ 27)) :
    ∃ f r, decodeItem f tl = some (p.1, r) := by
  unfold decodeElems at h
  cases hh : decodeHead ib tl with
  | none => simp [hh] at h
  | some b =>
    cases b with
    | arr n r0 =>
      simp only [hh] at h
      obtain ⟨-, h31, hra⟩ := decodeHead_arr hh
      unfold readArg at hra
      split_ifs at hra with h24 h1 h2 h3 h4
      · simp only [Option.some.injEq, Prod.mk.injEq] at hra
        obtain ⟨rfl, rfl⟩ := hra
        cases g with
        | zero =>
          cases hn : addInfo ib with
          | zero => rw [hn, decodeSeq.eq_1] at h; simp at h
          | succ m => rw [hn, decodeSeq.eq_2] at h; simp at h
        | succ g =>
          cases hn : addInfo ib with
          | zero => rw [hn, decodeSeq.eq_1] at h; simp at h
          | succ m =>
            rw [hn, decodeSeq.eq_3] at h
            cases hx : decodeItem g tl with
            | none => simp [hx] at h
            | some q =>
              obtain ⟨x, r1⟩ := q
              simp only [hx] at h
              cases hs : decodeSeq g m r1 with
              | none => simp [hs] at h
              | some w =>
                obtain ⟨qs, r2⟩ := w
                simp only [hs, Option.some.injEq, Prod.mk.injEq, List.cons.injEq] at h
                obtain ⟨⟨rfl, -⟩, -⟩ := h
                exact ⟨g, r1, hx⟩
      all_goals omega
    | arrIndef r0 =>
      simp only [hh] at h
      obtain ⟨-, -, rfl⟩ := decodeHead_arrIndef hh
      cases g with
      | zero => rw [decodeUntilBreak.eq_1] at h; simp at h
      | succ g =>
        cases r0 with
        | nil => rw [decodeUntilBreak.eq_2] at h; simp at h
        | cons b1 tl2 =>
          rw [decodeUntilBreak.eq_3] at h
          by_cases hb : b1.val = 255
          · rw [if_pos hb] at h; simp at h
          · rw [if_neg hb] at h
            cases hx : decodeItem g (b1 :: tl2) with
            | none => simp [hx] at h
            | some q =>
              obtain ⟨x, r1⟩ := q
              simp only [hx] at h
              cases hs : decodeUntilBreak g r1 with
              | none => simp [hs] at h
              | some w =>
                obtain ⟨qs, r2⟩ := w
                simp only [hs, Option.some.injEq, Prod.mk.injEq, List.cons.injEq] at h
                obtain ⟨⟨rfl, -⟩, -⟩ := h
                exact ⟨g, r1, hx⟩
    | leaf x r0 => simp [hh] at h
    | mp n r0 => simp [hh] at h
    | mpIndef r0 => simp [hh] at h
    | tagged t r0 => simp [hh] at h

/-! ## `ListLength` and `DecodeIdFromList` on well-formed arrays -/

/-- An input that some fuel decodes as an array is decoded so by `Decode`, and
the element walk at `Decode`'s fuel yields the same elements. -/
theorem parse_array {f : Nat} {bs rest : List Byte} {xs : List Item}
    (h : decodeItem f bs = some (Item.array xs, rest)) :
    ∃ ib tl ps, bs = ib :: tl ∧ majorType ib = 4 ∧
      decodeElems (fuelFor bs - 1) bs = some (ps, rest) ∧ xs = ps.map Prod.fst ∧
      parse bs = some (Item.array xs, rest) := by
  have hp := decodeItem_fuel_enough h
  obtain ⟨ib, tl, ps, g, hbs, hg, h4, he, hxs⟩ := decodeItem_array (f := fuelFor bs) hp
  refine ⟨ib, tl, ps, hbs, h4, ?_, hxs, hp⟩
  have : fuelFor bs - 1 = g := by omega
  rw [this]; exact he

theorem DecodeRawMessages_array {f : Nat} {bs rest : List Byte} {xs : List Item}
    (h : decodeItem f bs = some (Item.array xs, rest)) :
    ∃ raws, DecodeRawMessages bs = .ok raws ∧ raws.length = xs.length := by
  obtain ⟨ib, tl, ps, hbs, h4, he, hxs, -⟩ := parse_array h
  refine ⟨ps.map Prod.snd, ?_, by rw [hxs, List.length_map, List.length_map]⟩
  subst hbs
  simp only [DecodeRawMessages, h4, if_true, he]

theorem DecodeValue_of_decodeItem {f : Nat} {bs rest : List Byte} {x : Item}
    (h : decodeItem f bs = some (x, rest)) : DecodeValue bs = .ok x := by
  simp only [DecodeValue, decodeItem_fuel_enough h]

/-- `ListLength` on an input that starts with a well-formed array. -/
theorem ListLength_array {f : Nat} {bs rest : List Byte} {xs : List Item}
    (h : decodeItem f bs = some (Item.array xs, rest)) :
    ListLength bs = .ret (xs.length : Int) none := by
  obtain ⟨raws, hraw, hlen⟩ := DecodeRawMessages_array h
  obtain ⟨ib, tl, ps, hbs, h4, he, hxs, -⟩ := parse_array h
  subst hbs
  unfold ListLength
  simp only [List.getElem?_cons_zero, CBOR_TYPE_ARRAY, CBOR_MAX_UINT_SIMPLE]
  unfold majorType at h4
  by_cases hfast : ib.val ≥ 0x80 ∧ ib.val ≤ 0x80 + 0x17
  · rw [if_pos hfast]
    have hai : addInfo ib < 24 := by unfold addInfo; omega
    have hl := decodeElems_length_short he hai
    unfold addInfo at hl
    have : (xs.length : Int) = (ib.val : Int) - ((0x80 : Nat) : Int) := by
      rw [hxs, List.length_map, hl]; omega
    rw [this]
  · rw [if_neg hfast, hraw]
    simp only [hlen]

/-- The full decode of `DecodeIdFromList` on an input that starts with a
well-formed non-empty array. -/
theorem decodeIdFull_array {f : Nat} {bs rest : List Byte} {x : Item} {xs : List Item}
    (h : decodeItem f bs = some (Item.array (x :: xs), rest)) :
    (∀ v, x = Item.uint v → decodeIdFull bs = .ret (intOfUint64 v) none) ∧
      ((∀ v, x ≠ Item.uint v) → decodeIdFull bs = .ret 0 (some (.notNumeric x))) := by
  have hv := DecodeValue_of_decodeItem h
  refine ⟨?_, ?_⟩
  · rintro v rfl
    simp only [decodeIdFull, hv]
  · intro hx
    cases x with
    | uint v => exact absurd rfl (hx v)
    | _ => simp only [decodeIdFull, hv]

theorem intOfUint64_small {v : Nat} (h : v < 2 ^ 63) : intOfUint64 v = (v : Int) := by
  unfold intOfUint64
  have h1 : v % 2 ^ 64 = v := Nat.mod_eq_of_lt (by omega)
  rw [h1, if_pos h]

/-- On a well-formed non-empty array whose header does not spend extra bytes on
a length of 1..22, `DecodeIdFromList` either runs the full decode or returns a
second byte that is element 0 itself. -/
theorem DecodeIdFromList_array_paths {f : Nat} {bs rest : List Byte} {x : Item}
    {xs1 : List Item} (h : decodeItem f bs = some (Item.array (x :: xs1), rest))
    (hhead : ∀ b0 ∈ bs.head?,
      ¬ (0x98 ≤ b0.val ∧ b0.val ≤ 0x9b ∧ 1 ≤ (x :: xs1).length ∧ (x :: xs1).length ≤ 22)) :
    DecodeIdFromList bs = decodeIdFull bs ∨
      ∃ b1 : Byte, b1.val ≤ 23 ∧ xs1.length + 1 < 23 ∧
        DecodeIdFromList bs = .ret (b1.val : Int) none ∧ x = Item.uint b1.val := by
  have hll := ListLength_array h
  obtain ⟨ib, tl0, ps, hbs, h4, he, hxs, -⟩ := parse_array h
  have hne : ((x :: xs1).length : Int) ≠ 0 := by simp only [List.length_cons]; omega
  by_cases hlt : ((x :: xs1).length : Int) < ((CBOR_MAX_UINT_SIMPLE : Nat) : Int)
  · -- fewer than 23 elements: the header is one byte or indefinite
    subst hbs
    have hb := hhead ib (by simp)
    have hlt2 : xs1.length + 1 < 23 := by
      simp only [CBOR_MAX_UINT_SIMPLE, List.length_cons] at hlt; omega
    have hai : ¬ (24 ≤ addInfo ib ∧ addInfo ib ≤ 27) := by
      unfold majorType at h4
      unfold addInfo
      simp only [List.length_cons] at hb
      omega
    cases ps with
    | nil => simp at hxs
    | cons p ps1 =>
      simp only [List.map_cons, List.cons.injEq] at hxs
      obtain ⟨f1, r1, hx1⟩ := decodeElems_first he hai
      rw [← hxs.1] at hx1
      cases tl0 with
      | nil =>
        cases f1 with
        | zero => rw [decodeItem.eq_1] at hx1; exact absurd hx1 (by simp)
        | succ f1 => rw [decodeItem.eq_2] at hx1; exact absurd hx1 (by simp)
      | cons b1 tl1 =>
        obtain ⟨hmt, hval⟩ := decodeItem_first_byte hx1
        by_cases hb1 : b1.val ≤ CBOR_MAX_UINT_SIMPLE
        · right
          have h0 : majorType b1 = 0 := by
            unfold majorType; simp only [CBOR_MAX_UINT_SIMPLE] at hb1; omega
          obtain ⟨v, hv⟩ := hmt.1 h0
          have hvb := hval v hv (by simpa only [CBOR_MAX_UINT_SIMPLE] using hb1)
          refine ⟨b1, by simpa only [CBOR_MAX_UINT_SIMPLE] using hb1, hlt2, ?_, by rw [hv, hvb]⟩
          simp only [DecodeIdFromList, hll, if_neg hne, if_pos hlt,
            List.getElem?_cons_succ, List.getElem?_cons_zero, if_pos hb1]
        · left
          simp only [DecodeIdFromList, hll, if_neg hne, if_pos hlt,
            List.getElem?_cons_succ, List.getElem?_cons_zero, if_neg hb1]
  · left
    simp only [DecodeIdFromList, hll, if_neg hne, if_neg hlt]

/-- `DecodeIdFromList` on an input that starts with a well-formed array, unless
the header spends extra bytes on a length of 1..22: the empty-list error, the
first element converted to `int`, or the not-numeric error. -/
theorem DecodeIdFromList_array {f : Nat} {bs rest : List Byte} {xs : List Item}
    (h : decodeItem f bs = some (Item.array xs, rest))
    (hhead : ∀ b0 ∈ bs.head?, ¬ (0x98 ≤ b0.val ∧ b0.val ≤ 0x9b ∧ 1 ≤ xs.length ∧ xs.length ≤ 22)) :
    (xs = [] → DecodeIdFromList bs = .ret 0 (some .emptyList)) ∧
    (∀ v tl, xs = Item.uint v :: tl → DecodeIdFromList bs = .ret (intOfUint64 v) none) ∧
    (∀ x tl, xs = x :: tl → (∀ v, x ≠ Item.uint v) →
      DecodeIdFromList bs = .ret 0 (some (.notNumeric x))) := by
  have hll := ListLength_array h
  cases xs with
  | nil =>
    refine ⟨fun _ => ?_, fun v tl hx => absurd hx (by simp), fun x tl hx => absurd hx (by simp)⟩
    simp only [DecodeIdFromList, hll, List.length_nil, Nat.cast_zero, if_true]
  | cons x xs1 =>
    have hfull := decodeIdFull_array h
    have key := DecodeIdFromList_array_paths h hhead
    refine ⟨fun hx => absurd hx (by simp), ?_, ?_⟩
    · intro v tl hx
      simp only [List.cons.injEq] at hx
      rcases key with hk | ⟨b1, hb1, -, hk, hxb⟩
      · rw [hk]; exact hfull.1 v hx.1
      · rw [hk]
        have : v = b1.val := by
          rw [hx.1] at hxb; simpa only [Item.uint.injEq] using hxb
        rw [this, intOfUint64_small (by omega)]
    · intro y tl hx hy
      simp only [List.cons.injEq] at hx
      rcases key with hk | ⟨b1, hb1, -, hk, hxb⟩
      · rw [hk, ← hx.1]; exact hfull.2 (by rw [hx.1]; exact hy)
      · rw [hx.1] at hxb
        exact absurd hxb (hy _)

/-- An input is rejected by `Decode` exactly when no fuel decodes an item from it. -/
theorem parse_eq_none_iff (bs : List Byte) : parse bs = none ↔ ∀ f, decodeItem f bs = none := by
  constructor
  · intro h f
    cases hf : decodeItem f bs with
    | none => rfl
    | some r => rw [decodeItem_fuel_enough hf] at h; exact absurd h (by simp)
  · intro h; exact h _

/-! ## The claims about `cbor/decode.go` -/

/-- C1 (code defect): on a well-formed array of two elements whose header
spells the length in the longer form `0x98 n` (or `0x99 0 n`), the full generic
decode yields 5 as element 0, while `DecodeIdFromList` returns the length byte
at `cborData[1]` instead (2, respectively the high length byte 0). -/
theorem DecodeIdFromList_long_header_returns_length_byte :
    DecodeValue [0x98, 0x02, 0x05, 0x06] = .ok (Item.array [Item.uint 5, Item.uint 6]) ∧
    ListLength [0x98, 0x02, 0x05, 0x06] = .ret 2 none ∧
    DecodeIdFromList [0x98, 0x02, 0x05, 0x06] = .ret 2 none ∧
    DecodeValue [0x99, 0x00, 0x02, 0x05, 0x06] = .ok (Item.array [Item.uint 5, Item.uint 6]) ∧
    DecodeIdFromList [0x99, 0x00, 0x02, 0x05, 0x06] = .ret 0 none :=
  ⟨rfl, rfl, rfl, rfl, rfl⟩

/-- C2: on every input that starts with a well-formed array, `ListLength`
returns the number of elements without error; that number is `b - 0x80` when
the leading byte `b` lies in 0x80..0x97, it is the number of raw sub-values
`Decode` yields otherwise, and it is the element count of the full decode. -/
theorem ListLength_counts_elements (f : Nat) (bs rest : List Byte) (xs : List Item)
    (hwf : decodeItem f bs = some (Item.array xs, rest)) :
    ListLength bs = .ret (xs.length : Int) none ∧
    DecodeValue bs = .ok (Item.array xs) ∧
    (∀ b ∈ bs.head?, 0x80 ≤ b.val ∧ b.val ≤ 0x97 → (xs.length : Int) = (b.val : Int) - 0x80) ∧
    (∀ b ∈ bs.head?, ¬ (0x80 ≤ b.val ∧ b.val ≤ 0x97) →
      ∃ raws, DecodeRawMessages bs = .ok raws ∧ ListLength bs = .ret (raws.length : Int) none) := by
  have hll := ListLength_array hwf
  refine ⟨hll, DecodeValue_of_decodeItem hwf, ?_, ?_⟩
  · intro b hb hrange
    cases bs with
    | nil => simp at hb
    | cons b0 tl =>
      simp only [List.head?_cons, Option.mem_def, Option.some.injEq] at hb
      subst hb
      have h2 := hll
      unfold ListLength at h2
      simp only [List.getElem?_cons_zero, CBOR_TYPE_ARRAY, CBOR_MAX_UINT_SIMPLE] at h2
      rw [if_pos (by omega)] at h2
      simp only [Outcome.ret.injEq, and_true] at h2
      rw [← h2]; rfl
  · intro b _ _
    obtain ⟨raws, hraw, hlen⟩ := DecodeRawMessages_array hwf
    exact ⟨raws, hraw, by rw [hll, hlen]⟩

/-- C2, at the three-element array `83 01 02 03`. -/
theorem ListLength_counts_elements_witness :
    ListLength [0x83, 0x01, 0x02, 0x03] = .ret 3 none ∧
    DecodeValue [0x83, 0x01, 0x02, 0x03] =
      .ok (Item.array [Item.uint 1, Item.uint 2, Item.uint 3]) :=
  ⟨(ListLength_counts_elements 8 [0x83, 0x01, 0x02, 0x03] []
      [Item.uint 1, Item.uint 2, Item.uint 3] (by rfl)).1,
   (ListLength_counts_elements 8 [0x83, 0x01, 0x02, 0x03] []
      [Item.uint 1, Item.uint 2, Item.uint 3] (by rfl)).2.1⟩

/-- C3 (as stated, refuted): the lone header `81` and the truncated array
`82 05` are not well-formed items, yet `ListLength` returns 1 for the first and
`DecodeIdFromList` returns 5 for the second, both without error. -/
theorem fast_paths_accept_truncated_input :
    parse [0x81] = none ∧ ListLength [0x81] = .ret 1 none ∧
    parse [0x82, 0x05] = none ∧ DecodeIdFromList [0x82, 0x05] = .ret 5 none :=
  ⟨rfl, rfl, rfl, rfl⟩

/-- C3 (amended): for a non-empty input that does not start with a well-formed
item, `ListLength` and `DecodeIdFromList` return the decoder's error and the
zero value when the leading byte is outside 0x80..0x97; when it is `b` in
0x81..0x97 `ListLength` returns `b - 0x80` unchecked, and `DecodeIdFromList`,
given a second byte, returns that byte when it is at most 0x17 and `b < 0x97`,
and the decoder's error otherwise. -/
theorem malformed_input_outcomes (b0 : Byte) (tl : List Byte)
    (hmal : parse (b0 :: tl) = none) :
    (¬ (0x80 ≤ b0.val ∧ b0.val ≤ 0x97) →
      ListLength (b0 :: tl) = .ret 0 (some (.decode .malformed)) ∧
      DecodeIdFromList (b0 :: tl) = .ret 0 (some (.decode .malformed))) ∧
    (0x81 ≤ b0.val ∧ b0.val ≤ 0x97 →
      ListLength (b0 :: tl) = .ret ((b0.val : Int) - 0x80) none ∧
      ∀ b1 tl1, tl = b1 :: tl1 →
        DecodeIdFromList (b0 :: tl) =
          if b0.val < 0x97 ∧ b1.val ≤ 0x17 then .ret (b1.val : Int) none
          else .ret 0 (some (.decode .malformed))) := by
  have hfull : decodeIdFull (b0 :: tl) = .ret 0 (some (.decode .malformed)) := by
    simp only [decodeIdFull, DecodeValue, hmal]
  refine ⟨fun hout => ?_, fun hin => ?_⟩
  · have hraw : DecodeRawMessages (b0 :: tl) = .error .malformed := by
      unfold DecodeRawMessages
      by_cases h4 : majorType b0 = 4
      · simp only [h4, if_true]
        cases he : decodeElems (fuelFor (b0 :: tl) - 1) (b0 :: tl) with
        | none => rfl
        | some p =>
          obtain ⟨ps, r⟩ := p
          have := decodeItem_fuel_enough (decodeItem_of_decodeElems he)
          rw [hmal] at this
          exact absurd this (by simp)
      · simp only [h4, if_false, hmal]
    have hll : ListLength (b0 :: tl) = .ret 0 (some (.decode .malformed)) := by
      unfold ListLength
      simp only [List.getElem?_cons_zero, CBOR_TYPE_ARRAY, CBOR_MAX_UINT_SIMPLE]
      rw [if_neg (by omega), hraw]
    exact ⟨hll, by simp only [DecodeIdFromList, hll]⟩
  · have hll : ListLength (b0 :: tl) = .ret ((b0.val : Int) - 0x80) none := by
      unfold ListLength
      simp only [List.getElem?_cons_zero, CBOR_TYPE_ARRAY, CBOR_MAX_UINT_SIMPLE]
      rw [if_pos (by omega)]
      rfl
    refine ⟨hll, ?_⟩
    rintro b1 tl1 rfl
    have hne : ((b0.val : Int) - 0x80) ≠ 0 := by omega
    by_cases hlt : b0.val < 0x97
    · have hlt2 : ((b0.val : Int) - 0x80) < ((0x17 : Nat) : Int) := by omega
      by_cases hb1 : b1.val ≤ 0x17
      · rw [if_pos ⟨hlt, hb1⟩]
        simp only [DecodeIdFromList, hll, if_neg hne, if_pos hlt2, List.getElem?_cons_succ,
          List.getElem?_cons_zero, CBOR_MAX_UINT_SIMPLE, if_pos hb1]
      · rw [if_neg (fun h => hb1 h.2)]
        simp only [DecodeIdFromList, hll, if_neg hne, if_pos hlt2, List.getElem?_cons_succ,
          List.getElem?_cons_zero, CBOR_MAX_UINT_SIMPLE, if_neg hb1, hfull]
    · have hlt2 : ¬ ((b0.val : Int) - 0x80) < ((0x17 : Nat) : Int) := by omega
      rw [if_neg (fun h => hlt h.1)]
      simp only [DecodeIdFromList, hll, if_neg hne, CBOR_MAX_UINT_SIMPLE, if_neg hlt2, hfull]

/-- C3 (amended), at the truncated inputs `98` (a header missing its length
byte) and `82 18` (an element missing its argument). -/
theorem malformed_input_outcomes_witness :
    (ListLength [0x98] = .ret 0 (some (.decode .malformed)) ∧
      DecodeIdFromList [0x98] = .ret 0 (some (.decode .malformed))) ∧
    DecodeIdFromList [0x82, 0x18] = .ret 0 (some (.decode .malformed)) :=
  ⟨(malformed_input_outcomes 0x98 [] (by rfl)).1 (by decide),
   ((malformed_input_outcomes 0x82 [0x18] (by rfl)).2 (by decide)).2 0x18 [] rfl⟩

/-- C4: whenever `ListLength` yields 0, and in particular on every input that
starts with a well-formed empty array, `DecodeIdFromList` returns the error
"cannot return first item from empty list" with the zero value; it does so
before indexing `cborData[1]`, so also on the one-byte input `80`. -/
theorem DecodeIdFromList_empty_list (bs : List Byte)
    (h : ListLength bs = .ret 0 none ∨
      ∃ f rest, decodeItem f bs = some (Item.array [], rest)) :
    DecodeIdFromList bs = .ret 0 (some .emptyList) := by
  have hll : ListLength bs = .ret 0 none := by
    rcases h with h | ⟨f, rest, h⟩
    · exact h
    · have := ListLength_array h
      simpa only [List.length_nil, Nat.cast_zero] using this
  simp only [DecodeIdFromList, hll, if_true]

/-- C4, at the one-byte input `80` (no `cborData[1]` to read) and at the empty
indefinite-length array `9f ff`. -/
theorem DecodeIdFromList_empty_list_witness :
    DecodeIdFromList [0x80] = .ret 0 (some .emptyList) ∧
    DecodeIdFromList [0x9f, 0xff] = .ret 0 (some .emptyList) :=
  ⟨DecodeIdFromList_empty_list [0x80] (Or.inl (by rfl)),
   DecodeIdFromList_empty_list [0x9f, 0xff] (Or.inr ⟨4, [], by rfl⟩)⟩

/-- C5 (code defect): `98 01 20` is a well-formed array whose only element is
the negative integer -1 (first byte 0x20, major type 1), yet `DecodeIdFromList`
returns the id 1, the length byte at `cborData[1]`, without error; with the
one-byte header `81 20` it returns the not-numeric error. -/
theorem DecodeIdFromList_long_header_non_numeric :
    DecodeValue [0x98, 0x01, 0x20] = .ok (Item.array [Item.nint 0]) ∧
    DecodeIdFromList [0x98, 0x01, 0x20] = .ret 1 none ∧
    majorType (0x20 : Byte) = 1 ∧
    DecodeIdFromList [0x81, 0x20] = .ret 0 (some (.notNumeric (Item.nint 0))) :=
  ⟨rfl, rfl, rfl, rfl⟩

/-- C6 (as stated, refuted): the first element of `81 1b ff ff ff ff ff ff ff ff`
is the unsigned integer 2^64 - 1 in the full generic decode, and
`DecodeIdFromList` returns -1. -/
theorem DecodeIdFromList_wraps_large_uint :
    DecodeValue [0x81, 0x1b, 0xff, 0xff, 0xff, 0xff, 0xff, 0xff, 0xff, 0xff] =
      .ok (Item.array [Item.uint (2 ^ 64 - 1)]) ∧
    DecodeIdFromList [0x81, 0x1b, 0xff, 0xff, 0xff, 0xff, 0xff, 0xff, 0xff, 0xff] =
      .ret (-1) none :=
  ⟨rfl, rfl⟩

/-- C6 (amended): on a well-formed array with more than 23 elements, or whose
first element is an unsigned integer above 23 and whose header is not one of
the longer forms 0x98..0x9b, `DecodeIdFromList` is its full decode; when the
first element is an unsigned integer `v` it returns `int(v)`, which is `v`
itself below 2^63, and `ListLength` returns the full-decode element count. -/
theorem DecodeIdFromList_falls_back (f : Nat) (bs rest : List Byte) (xs : List Item)
    (hwf : decodeItem f bs = some (Item.array xs, rest))
    (hcase : 23 < xs.length ∨
      ((∃ v tl, xs = Item.uint v :: tl ∧ 23 < v) ∧
        ∀ b0 ∈ bs.head?, ¬ (0x98 ≤ b0.val ∧ b0.val ≤ 0x9b))) :
    DecodeIdFromList bs = decodeIdFull bs ∧
    (∀ v tl, xs = Item.uint v :: tl →
      DecodeIdFromList bs = .ret (intOfUint64 v) none ∧
      (v < 2 ^ 63 → intOfUint64 v = (v : Int))) ∧
    DecodeValue bs = .ok (Item.array xs) ∧
    ListLength bs = .ret (xs.length : Int) none := by
  have hhead : ∀ b0 ∈ bs.head?,
      ¬ (0x98 ≤ b0.val ∧ b0.val ≤ 0x9b ∧ 1 ≤ xs.length ∧ xs.length ≤ 22) := by
    intro b0 hb0 hb
    rcases hcase with hc | ⟨-, hc⟩
    · omega
    · exact hc b0 hb0 ⟨hb.1, hb.2.1⟩
  have hmain := DecodeIdFromList_array hwf hhead
  refine ⟨?_, fun v tl hx => ⟨hmain.2.1 v tl hx, intOfUint64_small⟩,
    DecodeValue_of_decodeItem hwf, ListLength_array hwf⟩
  cases xs with
  | nil =>
    rcases hcase with hc | ⟨⟨v, tl, hx, -⟩, -⟩
    · simp at hc
    · exact absurd hx (by simp)
  | cons x xs1 =>
    rcases DecodeIdFromList_array_paths hwf hhead with hk | ⟨b1, hb1, hlen, -, hxb⟩
    · exact hk
    · rcases hcase with hc | ⟨⟨v, tl, hx, hv⟩, -⟩
      · simp only [List.length_cons] at hc; omega
      · simp only [List.cons.injEq] at hx
        rw [hx.1] at hxb
        simp only [Item.uint.injEq] at hxb
        omega

/-- C6 (amended), at `82 18 20 06`, whose first element is 32. -/
theorem DecodeIdFromList_falls_back_witness :
    DecodeIdFromList [0x82, 0x18, 0x20, 0x06] = .ret (intOfUint64 32) none ∧
    ListLength [0x82, 0x18, 0x20, 0x06] = .ret 2 none :=
  have h := DecodeIdFromList_falls_back 4 [0x82, 0x18, 0x20, 0x06] []
    [Item.uint 32, Item.uint 6] (by rfl)
    (Or.inr ⟨⟨32, [Item.uint 6], rfl, by omega⟩, fun b0 hb0 => by
      simp only [List.head?_cons, Option.mem_def, Option.some.injEq] at hb0
      subst hb0; decide⟩)
  ⟨(h.2.1 32 [Item.uint 6] rfl).1, h.2.2.2⟩

/-- C7: with the outcome of `DecodeIdFromList` in hand, `DecodeById` returns an
error of `DecodeIdFromList` unchanged with a nil result and no decode; for an
id that is absent from the map or mapped to nil it returns the "unknown ID"
error with a nil result and hands nothing to `Decode`; otherwise it hands to
`Decode` exactly the destination the map holds for that id, and returns that
destination when the decode succeeds (and the decode error with a nil result
when it fails). -/
theorem DecodeById_dispatch {σ δ : Type}
    (decodeInto : List Byte → δ → σ → Option DecodeError × σ)
    (cborData : List Byte) (idMap : Int → Option (Option δ)) (m : Mem σ δ)
    (id : Int) (err : Option Err) (hid : DecodeIdFromList cborData = .ret id err) :
    (∀ e, err = some e →
      DecodeById decodeInto cborData idMap m = (.ret none (some e), m)) ∧
    (err = none →
      ((idMap id = none ∨ idMap id = some none) →
        DecodeById decodeInto cborData idMap m = (.ret none (some (.unknownId id)), m)) ∧
      (∀ dest, idMap id = some (some dest) →
        (DecodeById decodeInto cborData idMap m).2 =
          ⟨(decodeInto cborData dest m.heap).2, m.decoded ++ [dest]⟩ ∧
        ((decodeInto cborData dest m.heap).1 = none →
          (DecodeById decodeInto cborData idMap m).1 = .ret (some dest) none) ∧
        (∀ e, (decodeInto cborData dest m.heap).1 = some e →
          (DecodeById decodeInto cborData idMap m).1 = .ret none (some (.decode e))))) := by
  refine ⟨?_, ?_⟩
  · rintro e rfl
    simp only [DecodeById, hid]
  · rintro rfl
    refine ⟨?_, ?_⟩
    · rintro (h | h) <;> simp only [DecodeById, hid, h]
    · intro dest hd
      cases hdec : decodeInto cborData dest m.heap with
      | mk e h =>
        cases e with
        | none =>
          refine ⟨?_, fun _ => ?_, fun e he => absurd he (by simp)⟩ <;>
            simp only [DecodeById, hid, hd, hdec]
        | some e0 =>
          refine ⟨?_, fun he => absurd he (by simp), fun e he => ?_⟩
          · simp only [DecodeById, hid, hd, hdec]
          · simp only [Option.some.injEq] at he
            subst he
            simp only [DecodeById, hid, hd, hdec]

/-- C7, at the message `82 05 06` with a map that knows id 5 only: the
destination registered for 5 is decoded into and returned. -/
theorem DecodeById_dispatch_witness :
    (DecodeById (fun bs (d : Nat) (h : List (Nat × List Byte)) => (none, h ++ [(d, bs)]))
      [0x82, 0x05, 0x06] (fun id => if id = 5 then some (some 100) else none) ⟨[], []⟩).1 =
      .ret (some 100) none :=
  ((DecodeById_dispatch (fun bs (d : Nat) (h : List (Nat × List Byte)) => (none, h ++ [(d, bs)]))
    [0x82, 0x05, 0x06] (fun id => if id = 5 then some (some 100) else none) ⟨[], []⟩
    5 none (by rfl)).2 rfl).2 100 (by rfl) |>.2.1 rfl

end cbor

namespace chainsync

open protocol

/-! ## The claims about `protocol/chainsync/server.go` -/

/-- C8: for a server with a configured `FindIntersectFunc` handling a
FindIntersect message, with the callback's return in hand: on no error the
server calls `SendMessage` once, with `IntersectFound(point, tip)`; on the
`IntersectNotFoundError` sentinel it calls `SendMessage` once, with
`IntersectNotFound(tip)`; in both cases the handler returns what the send
returned (nil on success, the send failure otherwise); on any other error it
sends nothing and returns that error. -/
theorem handleFindIntersect_replies {σ : Type} (env : Env σ) (s : Server σ) (cfg : Config σ)
    (f : CallbackContext → List Point → σ → (Point × Tip × Option Error) × σ)
    (points : List Point) (w : World σ) (point : Point) (tip : Tip) (err : Option Error)
    (app1 : σ) (hcfg : s.config = some cfg) (hf : cfg.FindIntersectFunc = some f)
    (hcall : f s.callbackContext points w.app = ((point, tip, err), app1)) :
    (err = none →
      s.handleFindIntersect env (.MsgFindIntersect points) w =
        .returned (env.SendMessage s.Protocol (.MsgIntersectFound point tip) app1).1
          ⟨(env.SendMessage s.Protocol (.MsgIntersectFound point tip) app1).2,
            w.trace ++ [.findIntersectCalled s.callbackContext points,
              .sendMessage (.MsgIntersectFound point tip)]⟩) ∧
    (err = some .IntersectNotFoundError →
      s.handleFindIntersect env (.MsgFindIntersect points) w =
        .returned (env.SendMessage s.Protocol (.MsgIntersectNotFound tip) app1).1
          ⟨(env.SendMessage s.Protocol (.MsgIntersectNotFound tip) app1).2,
            w.trace ++ [.findIntersectCalled s.callbackContext points,
              .sendMessage (.MsgIntersectNotFound tip)]⟩) ∧
    (∀ e, err = some e → e ≠ .IntersectNotFoundError →
      s.handleFindIntersect env (.MsgFindIntersect points) w =
        .returned (some e)
          ⟨app1, w.trace ++ [.findIntersectCalled s.callbackContext points]⟩) := by
  refine ⟨?_, ?_, ?_⟩
  · rintro rfl
    simp only [Server.handleFindIntersect, hcfg, hf, hcall, Server.SendMessage]
    cases hs : (env.SendMessage s.Protocol (.MsgIntersectFound point tip) app1).1 <;>
      simp [hs]
  · rintro rfl
    simp only [Server.handleFindIntersect, hcfg, hf, hcall, Server.SendMessage, if_true]
    cases hs : (env.SendMessage s.Protocol (.MsgIntersectNotFound tip) app1).1 <;>
      simp [hs]
  · rintro e rfl hne
    simp only [Server.handleFindIntersect, hcfg, hf, hcall, if_neg hne]

/-- C8, on the demonstration server: a match is answered by one
`IntersectFound`, an empty candidate list by one `IntersectNotFound`. -/
theorem handleFindIntersect_replies_witness :
    demoServer.handleFindIntersect demoEnv (.MsgFindIntersect [⟨5, []⟩]) ⟨0, []⟩ =
      .returned none ⟨1, [.findIntersectCalled ⟨1⟩ [⟨5, []⟩],
        .sendMessage (.MsgIntersectFound ⟨5, []⟩ demoTip)]⟩ ∧
    demoServer.handleFindIntersect demoEnv (.MsgFindIntersect []) ⟨0, []⟩ =
      .returned none ⟨1, [.findIntersectCalled ⟨1⟩ [],
        .sendMessage (.MsgIntersectNotFound demoTip)]⟩ :=
  ⟨(handleFindIntersect_replies demoEnv demoServer demoConfig _ [⟨5, []⟩] ⟨0, []⟩
      ⟨5, []⟩ demoTip none 0 rfl rfl rfl).1 rfl,
   (handleFindIntersect_replies demoEnv demoServer demoConfig _ [] ⟨0, []⟩
      ⟨0, []⟩ demoTip (some .IntersectNotFoundError) 0 rfl rfl rfl).2.1 rfl⟩

/-- C9: `RollForward` calls `SendMessage` exactly once and returns its result;
in node-to-node mode the message is the NtN roll-forward with the era looked up
from `blockType` in the block-type→era table, the placeholder 0, `blockData`
and `tip`; in every other mode it is the NtC roll-forward with `blockType`,
`blockData` and `tip`. -/
theorem RollForward_sends_one_message {σ : Type} (env : Env σ) (s : Server σ) (blockType : Nat)
    (blockData : List cbor.Byte) (tip : Tip) (w : World σ) :
    ∃ msg : Message,
      (if s.Protocol.Mode = .ProtocolModeNodeToNode then
        msg = .MsgRollForwardNtN ((env.BlockToBlockHeaderTypeMap blockType).getD 0) 0
          blockData tip
      else msg = .MsgRollForwardNtC blockType blockData tip) ∧
      (s.RollForward env blockType blockData tip w).1 =
        (env.SendMessage s.Protocol msg w.app).1 ∧
      (s.RollForward env blockType blockData tip w).2.app =
        (env.SendMessage s.Protocol msg w.app).2 ∧
      (s.RollForward env blockType blockData tip w).2.trace = w.trace ++ [.sendMessage msg] := by
  by_cases hm : s.Protocol.Mode = .ProtocolModeNodeToNode
  · refine ⟨.MsgRollForwardNtN ((env.BlockToBlockHeaderTypeMap blockType).getD 0) 0
      blockData tip, ?_, ?_, ?_, ?_⟩ <;>
      simp only [Server.RollForward, hm, if_true, Server.SendMessage]
  · refine ⟨.MsgRollForwardNtC blockType blockData tip, ?_, ?_, ?_, ?_⟩ <;>
      simp only [Server.RollForward, hm, if_false, Server.SendMessage]

/-- C10: without a configuration or without a `RequestNextFunc`,
`handleRequestNext` returns the missing-callback error and leaves the world as
it was (no callback, no send); with a `RequestNextFunc` it invokes it once, with
the server's callback context, and returns its result. Without a configuration
or a `FindIntersectFunc`, `handleFindIntersect` likewise returns its
missing-callback error and leaves the world as it was. -/
theorem handlers_require_callback {σ : Type} (env : Env σ) (s : Server σ) (msg : Message)
    (w : World σ) :
    ((s.config = none ∨ ∃ cfg, s.config = some cfg ∧ cfg.RequestNextFunc = none) →
      s.handleRequestNext w = (some .noRequestNextCallback, w)) ∧
    (∀ cfg f, s.config = some cfg → cfg.RequestNextFunc = some f →
      s.handleRequestNext w =
        ((f s.callbackContext w.app).1,
          ⟨(f s.callbackContext w.app).2, w.trace ++ [.requestNextCalled s.callbackContext]⟩)) ∧
    ((s.config = none ∨ ∃ cfg, s.config = some cfg ∧ cfg.FindIntersectFunc = none) →
      s.handleFindIntersect env msg w = .returned (some .noFindIntersectCallback) w) := by
  refine ⟨?_, ?_, ?_⟩
  · rintro (h | ⟨cfg, h, hf⟩)
    · simp only [Server.handleRequestNext, h]
    · simp only [Server.handleRequestNext, h, hf]
  · intro cfg f h hf
    simp only [Server.handleRequestNext, h, hf]
  · rintro (h | ⟨cfg, h, hf⟩)
    · simp only [Server.handleFindIntersect, h]
    · simp only [Server.handleFindIntersect, h, hf]

/-- C10, on a server without configuration and on the demonstration server. -/
theorem handlers_require_callback_witness :
    bareServer.handleRequestNext ⟨0, []⟩ = (some .noRequestNextCallback, ⟨0, []⟩) ∧
    bareServer.handleFindIntersect demoEnv (.MsgFindIntersect []) ⟨0, []⟩ =
      .returned (some .noFindIntersectCallback) ⟨0, []⟩ ∧
    demoServer.handleRequestNext ⟨0, []⟩ = (none, ⟨10, [.requestNextCalled ⟨1⟩]⟩) :=
  ⟨(handlers_require_callback demoEnv bareServer (.MsgFindIntersect []) ⟨0, []⟩).1 (Or.inl rfl),
   (handlers_require_callback demoEnv bareServer (.MsgFindIntersect []) ⟨0, []⟩).2.2 (Or.inl rfl),
   (handlers_require_callback demoEnv demoServer .MsgDone ⟨0, []⟩).2.1 demoConfig _ rfl rfl⟩

end chainsync

namespace cbor

/-- C13: on every input whose leading byte is not of major type 4 (outside
0x80..0x9f), `ListLength` returns an error of the decoder and the zero length:
a type mismatch when the input starts with a well-formed item, malformed input
otherwise. -/
theorem ListLength_rejects_non_array (b0 : Byte) (tl : List Byte) (h : majorType b0 ≠ 4) :
    ListLength (b0 :: tl) =
      .ret 0 (some (.decode
        (if (parse (b0 :: tl)).isSome then DecodeError.typeMismatch
         else DecodeError.malformed))) := by
  have hfast : ¬ (b0.val ≥ 0x80 ∧ b0.val ≤ 0x80 + 0x17) := by
    unfold majorType at h; omega
  unfold ListLength
  simp only [List.getElem?_cons_zero, CBOR_TYPE_ARRAY, CBOR_MAX_UINT_SIMPLE]
  rw [if_neg hfast]
  unfold DecodeRawMessages
  simp only [h, if_false]
  cases hp : parse (b0 :: tl) with
  | none => simp only [Option.isSome_none, Bool.false_eq_true, if_false]
  | some r => simp only [Option.isSome_some, if_true]

/-- C13, at the one-byte inputs `f6` (null) and `18` (an integer missing its
argument). -/
theorem ListLength_rejects_non_array_witness :
    ListLength [0xf6] = .ret 0 (some (.decode .typeMismatch)) ∧
    ListLength [0x18] = .ret 0 (some (.decode .malformed)) :=
  ⟨ListLength_rejects_non_array 0xf6 [] (by decide),
   ListLength_rejects_non_array 0x18 [] (by decide)⟩

end cbor

namespace chainsync

open protocol

/-- C11: for a message whose type tag is none of RequestNext, FindIntersect and
Done, `messageHandler` returns the "unexpected message type" error and leaves
server and world as they were (no callback, no send, no restart); for each of
the three handled tags it returns what the matching handler returns, with the
state that handler leaves. -/
theorem messageHandler_closed_switch {σ : Type} (env : Env σ) (s : Server σ) (msg : Message)
    (w : World σ) :
    (msg.Type ≠ .MessageTypeRequestNext → msg.Type ≠ .MessageTypeFindIntersect →
      msg.Type ≠ .MessageTypeDone →
      s.messageHandler env msg w =
        .returned (some (.unexpectedMessageType msg.Type)) (s, w)) ∧
    (msg.Type = .MessageTypeRequestNext →
      s.messageHandler env msg w =
        .returned (s.handleRequestNext w).1 (s, (s.handleRequestNext w).2)) ∧
    (msg.Type = .MessageTypeFindIntersect →
      (∀ err w1, s.handleFindIntersect env msg w = .returned err w1 →
        s.messageHandler env msg w = .returned err (s, w1)) ∧
      (∀ p, s.handleFindIntersect env msg w = .panicked p →
        s.messageHandler env msg w = .panicked p)) ∧
    (msg.Type = .MessageTypeDone →
      s.messageHandler env msg w =
        .returned (s.handleDone env w).1 (s.handleDone env w).2) := by
  refine ⟨?_, ?_, ?_, ?_⟩
  · intro h1 h2 h3
    unfold Server.messageHandler
    split
    · rename_i heq; exact absurd heq h1
    · rename_i heq; exact absurd heq h2
    · rename_i heq; exact absurd heq h3
    · rfl
  · intro h
    simp only [Server.messageHandler, h]
  · intro h
    refine ⟨fun err w1 hr => ?_, fun p hr => ?_⟩ <;>
      simp only [Server.messageHandler, h, hr]
  · intro h
    simp only [Server.messageHandler, h]

/-- C11, on the demonstration server: an AwaitReply message and a message with
an unknown tag are refused, a RequestNext message runs the callback. -/
theorem messageHandler_closed_switch_witness :
    demoServer.messageHandler demoEnv .MsgAwaitReply ⟨0, []⟩ =
      .returned (some (.unexpectedMessageType .MessageTypeAwaitReply)) (demoServer, ⟨0, []⟩) ∧
    demoServer.messageHandler demoEnv (.other (.unknown 9)) ⟨0, []⟩ =
      .returned (some (.unexpectedMessageType (.unknown 9))) (demoServer, ⟨0, []⟩) ∧
    demoServer.messageHandler demoEnv .MsgRequestNext ⟨0, []⟩ =
      .returned none (demoServer, ⟨10, [.requestNextCalled ⟨1⟩]⟩) :=
  ⟨(messageHandler_closed_switch demoEnv demoServer .MsgAwaitReply ⟨0, []⟩).1
      (by decide) (by decide) (by decide),
   (messageHandler_closed_switch demoEnv demoServer (.other (.unknown 9)) ⟨0, []⟩).1
      (by decide) (by decide) (by decide),
   (messageHandler_closed_switch demoEnv demoServer .MsgRequestNext ⟨0, []⟩).2.1 rfl⟩

/-- C12: `handleDone` returns no error; it stops the current engine, then
creates and starts an engine whose configuration has initial state Idle, role
Server, and the mode, protocol identifier, state map and state context that
follow from the saved protocol options and state context; the server's
configuration, callback context, protocol options and state context are
unchanged. On a server built by `NewServer` the new engine's configuration is
the one the server was constructed with. -/
theorem handleDone_restarts {σ : Type} (env : Env σ) (s : Server σ) (w : World σ) :
    (s.handleDone env w).1 = none ∧
    (s.handleDone env w).2.2.trace =
      w.trace ++ [.engineStop s.Protocol,
        .engineNew (protoConfig s.protoOptions s.stateContext),
        .engineStart ⟨protoConfig s.protoOptions s.stateContext⟩] ∧
    (s.handleDone env w).2.2.app =
      env.Start ⟨protoConfig s.protoOptions s.stateContext⟩
        (env.New (protoConfig s.protoOptions s.stateContext) (env.Stop s.Protocol w.app)) ∧
    (s.handleDone env w).2.1.Protocol.config = protoConfig s.protoOptions s.stateContext ∧
    ((s.handleDone env w).2.1.Protocol.config.InitialState = .stateIdle ∧
      (s.handleDone env w).2.1.Protocol.config.Role = .ProtocolRoleServer ∧
      (s.handleDone env w).2.1.Protocol.config.Mode = s.protoOptions.Mode ∧
      (s.handleDone env w).2.1.Protocol.config.StateMap = StateMap ∧
      (s.handleDone env w).2.1.Protocol.config.StateContext = s.stateContext) ∧
    ((s.handleDone env w).2.1.config = s.config ∧
      (s.handleDone env w).2.1.callbackContext = s.callbackContext ∧
      (s.handleDone env w).2.1.protoOptions = s.protoOptions ∧
      (s.handleDone env w).2.1.stateContext = s.stateContext) ∧
    (∀ (stateContext : Nat) (protoOptions : ProtocolOptions) (cfg : Option (Config σ))
        (w0 : World σ), s = (NewServer env stateContext protoOptions cfg w0).1 →
      (s.handleDone env w).2.1.Protocol = s.Protocol ∧
      (s.handleDone env w).2.1.Protocol.config = protoConfig protoOptions stateContext) := by
  refine ⟨rfl, ?_, rfl, rfl, ⟨rfl, rfl, rfl, rfl, rfl⟩, ⟨rfl, rfl, rfl, rfl⟩, ?_⟩
  · simp only [Server.handleDone, Server.initProtocol, List.append_assoc, List.singleton_append,
      List.cons_append, List.nil_append]
  · rintro sc po cfg w0 rfl
    exact ⟨rfl, rfl⟩

/-- C12, on the demonstration server: the trace of a Done is stop, new, start,
and the server is as before. -/
theorem handleDone_restarts_witness :
    (demoServer.handleDone demoEnv ⟨0, []⟩).2.2.trace =
      [.engineStop demoServer.Protocol,
        .engineNew (protoConfig ⟨1, 0, 0, 0, .ProtocolModeNodeToNode⟩ 0),
        .engineStart ⟨protoConfig ⟨1, 0, 0, 0, .ProtocolModeNodeToNode⟩ 0⟩] ∧
    (demoServer.handleDone demoEnv ⟨0, []⟩).2.1.Protocol = demoServer.Protocol :=
  ⟨(handleDone_restarts demoEnv demoServer ⟨0, []⟩).2.1,
   ((handleDone_restarts demoEnv demoServer ⟨0, []⟩).2.2.2.2.2.2
      0 ⟨1, 0, 0, 0, .ProtocolModeNodeToNode⟩ (some demoConfig) ⟨0, []⟩ rfl).1⟩

/-- C14: the configuration `initProtocol` installs (the one `NewServer` starts
with) pairs the node-to-node protocol identifier with the node-to-node message
factory exactly when the saved mode is node-to-node, and the node-to-client
identifier with the node-to-client factory in every other mode; the role is
Server and the initial state Idle. -/
theorem initProtocol_pairs_id_with_factory {σ : Type} (env : Env σ) (s : Server σ)
    (w : World σ) :
    (s.initProtocol env w).1.Protocol.config = protoConfig s.protoOptions s.stateContext ∧
    (s.protoOptions.Mode = .ProtocolModeNodeToNode →
      (s.initProtocol env w).1.Protocol.config.ProtocolId = .ProtocolIdNtN ∧
      (s.initProtocol env w).1.Protocol.config.MessageFromCborFunc = .NewMsgFromCborNtN) ∧
    (s.protoOptions.Mode ≠ .ProtocolModeNodeToNode →
      (s.initProtocol env w).1.Protocol.config.ProtocolId = .ProtocolIdNtC ∧
      (s.initProtocol env w).1.Protocol.config.MessageFromCborFunc = .NewMsgFromCborNtC) ∧
    ((s.initProtocol env w).1.Protocol.config.ProtocolId = .ProtocolIdNtN ↔
      s.protoOptions.Mode = .ProtocolModeNodeToNode) ∧
    ((s.initProtocol env w).1.Protocol.config.ProtocolId = .ProtocolIdNtN ↔
      (s.initProtocol env w).1.Protocol.config.MessageFromCborFunc = .NewMsgFromCborNtN) ∧
    (s.initProtocol env w).1.Protocol.config.Role = .ProtocolRoleServer ∧
    (s.initProtocol env w).1.Protocol.config.InitialState = .stateIdle ∧
    (s.initProtocol env w).1.Protocol.config.Mode = s.protoOptions.Mode ∧
    (∀ (stateContext : Nat) (protoOptions : ProtocolOptions) (cfg : Option (Config σ))
        (w0 : World σ),
      (NewServer env stateContext protoOptions cfg w0).1.Protocol.config =
        protoConfig protoOptions stateContext) := by
  refine ⟨rfl, ?_, ?_, ?_, ?_, rfl, rfl, rfl, fun _ _ _ _ => rfl⟩
  · intro h
    simp only [Server.initProtocol, protoConfig, h, if_true, and_self]
  · intro h
    simp only [Server.initProtocol, protoConfig, h, if_false, and_self]
  · by_cases h : s.protoOptions.Mode = .ProtocolModeNodeToNode <;>
      simp [Server.initProtocol, protoConfig, h]
  · by_cases h : s.protoOptions.Mode = .ProtocolModeNodeToNode <;>
      simp [Server.initProtocol, protoConfig, h]

/-- C14, on a node-to-node and on a node-to-client server. -/
theorem initProtocol_pairs_id_with_factory_witness :
    ((demoServer.initProtocol demoEnv ⟨0, []⟩).1.Protocol.config.ProtocolId = .ProtocolIdNtN ∧
      (demoServer.initProtocol demoEnv ⟨0, []⟩).1.Protocol.config.MessageFromCborFunc =
        .NewMsgFromCborNtN) ∧
    ((NewServer demoEnv 0 ⟨1, 0, 0, 0, .ProtocolModeNodeToClient⟩ none
        ⟨0, []⟩).1.initProtocol demoEnv ⟨0, []⟩).1.Protocol.config.ProtocolId = .ProtocolIdNtC :=
  ⟨(initProtocol_pairs_id_with_factory demoEnv demoServer ⟨0, []⟩).2.1 rfl,
   ((initProtocol_pairs_id_with_factory demoEnv
      (NewServer demoEnv 0 ⟨1, 0, 0, 0, .ProtocolModeNodeToClient⟩ none ⟨0, []⟩).1
      ⟨0, []⟩).2.2.1 (by decide)).1⟩

end chainsync

namespace shelley

/-! ## The claims about `ledger/shelley/pparams.go` -/

/-- Reading a field after a guarded assignment. -/
theorem ifSet_apply {α S β : Type} (π : S → β) (x : Option α) (f : α → S → S) (s : S) :
    π (ifSet x f s) = x.elim (π s) (fun v => π (f v s)) := by
  cases x <;> rfl

theorem elim_same {α β : Type} (x : Option α) (b : β) : x.elim b (fun _ => b) = b := by
  cases x <;> rfl

theorem Update_MinFeeA (p : ShelleyProtocolParameters) (u : ShelleyProtocolParameterUpdate) :
    (p.Update u).MinFeeA = u.MinFeeA.elim p.MinFeeA (fun v => v) := by
  simp only [ShelleyProtocolParameters.Update, ifSet_apply ShelleyProtocolParameters.MinFeeA,
    elim_same]

theorem Update_MinFeeB (p : ShelleyProtocolParameters) (u : ShelleyProtocolParameterUpdate) :
    (p.Update u).MinFeeB = u.MinFeeB.elim p.MinFeeB (fun v => v) := by
  simp only [ShelleyProtocolParameters.Update, ifSet_apply ShelleyProtocolParameters.MinFeeB,
    elim_same]

theorem Update_MaxBlockBodySize (p : ShelleyProtocolParameters) (u : ShelleyProtocolParameterUpdate) :
    (p.Update u).MaxBlockBodySize = u.MaxBlockBodySize.elim p.MaxBlockBodySize (fun v => v) := by
  simp only [ShelleyProtocolParameters.Update, ifSet_apply ShelleyProtocolParameters.MaxBlockBodySize,
    elim_same]

theorem Update_MaxTxSize (p : ShelleyProtocolParameters) (u : ShelleyProtocolParameterUpdate) :
    (p.Update u).MaxTxSize = u.MaxTxSize.elim p.MaxTxSize (fun v => v) := by
  simp only [ShelleyProtocolParameters.Update, ifSet_apply ShelleyProtocolParameters.MaxTxSize,
    elim_same]

theorem Update_MaxBlockHeaderSize (p : ShelleyProtocolParameters) (u : ShelleyProtocolParameterUpdate) :
    (p.Update u).MaxBlockHeaderSize = u.MaxBlockHeaderSize.elim p.MaxBlockHeaderSize (fun v => v) := by
  simp only [ShelleyProtocolParameters.Update, ifSet_apply ShelleyProtocolParameters.MaxBlockHeaderSize,
    elim_same]

theorem Update_KeyDeposit (p : ShelleyProtocolParameters) (u : ShelleyProtocolParameterUpdate) :
    (p.Update u).KeyDeposit = u.KeyDeposit.elim p.KeyDeposit (fun v => v) := by
  simp only [ShelleyProtocolParameters.Update, ifSet_apply ShelleyProtocolParameters.KeyDeposit,
    elim_same]

theorem Update_PoolDeposit (p : ShelleyProtocolParameters) (u : ShelleyProtocolParameterUpdate) :
    (p.Update u).PoolDeposit = u.PoolDeposit.elim p.PoolDeposit (fun v => v) := by
  simp only [ShelleyProtocolParameters.Update, ifSet_apply ShelleyProtocolParameters.PoolDeposit,
    elim_same]

theorem Update_MaxEpoch (p : ShelleyProtocolParameters) (u : ShelleyProtocolParameterUpdate) :
    (p.Update u).MaxEpoch = u.MaxEpoch.elim p.MaxEpoch (fun v => v) := by
  simp only [ShelleyProtocolParameters.Update, ifSet_apply ShelleyProtocolParameters.MaxEpoch,
    elim_same]

theorem Update_NOpt (p : ShelleyProtocolParameters) (u : ShelleyProtocolParameterUpdate) :
    (p.Update u).NOpt = u.NOpt.elim p.NOpt (fun v => v) := by
  simp only [ShelleyProtocolParameters.Update, ifSet_apply ShelleyProtocolParameters.NOpt,
    elim_same]

theorem Update_MinUtxoValue (p : ShelleyProtocolParameters) (u : ShelleyProtocolParameterUpdate) :
    (p.Update u).MinUtxoValue = u.MinUtxoValue.elim p.MinUtxoValue (fun v => v) := by
  simp only [ShelleyProtocolParameters.Update, ifSet_apply ShelleyProtocolParameters.MinUtxoValue,
    elim_same]

theorem Update_A0 (p : ShelleyProtocolParameters) (u : ShelleyProtocolParameterUpdate) :
    (p.Update u).A0 = u.A0.elim p.A0 (fun v => some v) := by
  simp only [ShelleyProtocolParameters.Update, ifSet_apply ShelleyProtocolParameters.A0,
    elim_same]

theorem Update_Rho (p : ShelleyProtocolParameters) (u : ShelleyProtocolParameterUpdate) :
    (p.Update u).Rho = u.Rho.elim p.Rho (fun v => some v) := by
  simp only [ShelleyProtocolParameters.Update, ifSet_apply ShelleyProtocolParameters.Rho,
    elim_same]

theorem Update_Tau (p : ShelleyProtocolParameters) (u : ShelleyProtocolParameterUpdate) :
    (p.Update u).Tau = u.Tau.elim p.Tau (fun v => some v) := by
  simp only [ShelleyProtocolParameters.Update, ifSet_apply ShelleyProtocolParameters.Tau,
    elim_same]

theorem Update_Decentralization (p : ShelleyProtocolParameters) (u : ShelleyProtocolParameterUpdate) :
    (p.Update u).Decentralization = u.Decentralization.elim p.Decentralization (fun v => some v) := by
  simp only [ShelleyProtocolParameters.Update, ifSet_apply ShelleyProtocolParameters.Decentralization,
    elim_same]

theorem Update_Nonce (p : ShelleyProtocolParameters) (u : ShelleyProtocolParameterUpdate) :
    (p.Update u).Nonce = u.Nonce.elim p.Nonce (fun v => some v) := by
  simp only [ShelleyProtocolParameters.Update, ifSet_apply ShelleyProtocolParameters.Nonce,
    elim_same]

theorem Update_ProtocolMajor (p : ShelleyProtocolParameters) (u : ShelleyProtocolParameterUpdate) :
    (p.Update u).ProtocolMajor = u.ProtocolVersion.elim p.ProtocolMajor (fun v => v.Major) := by
  simp only [ShelleyProtocolParameters.Update, ifSet_apply ShelleyProtocolParameters.ProtocolMajor,
    elim_same]

theorem Update_ProtocolMinor (p : ShelleyProtocolParameters) (u : ShelleyProtocolParameterUpdate) :
    (p.Update u).ProtocolMinor = u.ProtocolVersion.elim p.ProtocolMinor (fun v => v.Minor) := by
  simp only [ShelleyProtocolParameters.Update, ifSet_apply ShelleyProtocolParameters.ProtocolMinor,
    elim_same]

/-- C16: after `p.Update(u)` every parameter whose entry is present in `u` has
`u`'s value (a present `ProtocolVersion` sets `ProtocolMajor` and
`ProtocolMinor`), every parameter whose entry is absent is unchanged, and an
update with no entry present leaves `p` as it was. -/
theorem Update_sets_present_entries (p : ShelleyProtocolParameters)
    (u : ShelleyProtocolParameterUpdate) :
    ((∀ v, u.MinFeeA = some v → (p.Update u).MinFeeA = v) ∧
      (u.MinFeeA = none → (p.Update u).MinFeeA = p.MinFeeA)) ∧
    ((∀ v, u.MinFeeB = some v → (p.Update u).MinFeeB = v) ∧
      (u.MinFeeB = none → (p.Update u).MinFeeB = p.MinFeeB)) ∧
    ((∀ v, u.MaxBlockBodySize = some v → (p.Update u).MaxBlockBodySize = v) ∧
      (u.MaxBlockBodySize = none → (p.Update u).MaxBlockBodySize = p.MaxBlockBodySize)) ∧
    ((∀ v, u.MaxTxSize = some v → (p.Update u).MaxTxSize = v) ∧
      (u.MaxTxSize = none → (p.Update u).MaxTxSize = p.MaxTxSize)) ∧
    ((∀ v, u.MaxBlockHeaderSize = some v → (p.Update u).MaxBlockHeaderSize = v) ∧
      (u.MaxBlockHeaderSize = none → (p.Update u).MaxBlockHeaderSize = p.MaxBlockHeaderSize)) ∧
    ((∀ v, u.KeyDeposit = some v → (p.Update u).KeyDeposit = v) ∧
      (u.KeyDeposit = none → (p.Update u).KeyDeposit = p.KeyDeposit)) ∧
    ((∀ v, u.PoolDeposit = some v → (p.Update u).PoolDeposit = v) ∧
      (u.PoolDeposit = none → (p.Update u).PoolDeposit = p.PoolDeposit)) ∧
    ((∀ v, u.MaxEpoch = some v → (p.Update u).MaxEpoch = v) ∧
      (u.MaxEpoch = none → (p.Update u).MaxEpoch = p.MaxEpoch)) ∧
    ((∀ v, u.NOpt = some v → (p.Update u).NOpt = v) ∧
      (u.NOpt = none → (p.Update u).NOpt = p.NOpt)) ∧
    ((∀ v, u.MinUtxoValue = some v → (p.Update u).MinUtxoValue = v) ∧
      (u.MinUtxoValue = none → (p.Update u).MinUtxoValue = p.MinUtxoValue)) ∧
    ((∀ v, u.A0 = some v → (p.Update u).A0 = some v) ∧
      (u.A0 = none → (p.Update u).A0 = p.A0)) ∧
    ((∀ v, u.Rho = some v → (p.Update u).Rho = some v) ∧
      (u.Rho = none → (p.Update u).Rho = p.Rho)) ∧
    ((∀ v, u.Tau = some v → (p.Update u).Tau = some v) ∧
      (u.Tau = none → (p.Update u).Tau = p.Tau)) ∧
    ((∀ v, u.Decentralization = some v → (p.Update u).Decentralization = some v) ∧
      (u.Decentralization = none → (p.Update u).Decentralization = p.Decentralization)) ∧
    ((∀ v, u.Nonce = some v → (p.Update u).Nonce = some v) ∧
      (u.Nonce = none → (p.Update u).Nonce = p.Nonce)) ∧
    ((∀ v, u.ProtocolVersion = some v →
        (p.Update u).ProtocolMajor = v.Major ∧ (p.Update u).ProtocolMinor = v.Minor) ∧
      (u.ProtocolVersion = none →
        (p.Update u).ProtocolMajor = p.ProtocolMajor ∧
        (p.Update u).ProtocolMinor = p.ProtocolMinor)) ∧
    ((
        u.MinFeeA = none ∧
        u.MinFeeB = none ∧
        u.MaxBlockBodySize = none ∧
        u.MaxTxSize = none ∧
        u.MaxBlockHeaderSize = none ∧
        u.KeyDeposit = none ∧
        u.PoolDeposit = none ∧
        u.MaxEpoch = none ∧
        u.NOpt = none ∧
        u.A0 = none ∧
        u.Rho = none ∧
        u.Tau = none ∧
        u.Decentralization = none ∧
        u.Nonce = none ∧
        u.ProtocolVersion = none ∧
        u.MinUtxoValue = none) →
      p.Update u = p) := by
  refine ⟨?_, ?_, ?_, ?_, ?_, ?_, ?_, ?_, ?_, ?_, ?_, ?_, ?_, ?_, ?_, ?_, ?_⟩
  · exact ⟨fun v h => by rw [Update_MinFeeA, h]; rfl, fun h => by rw [Update_MinFeeA, h]; rfl⟩
  · exact ⟨fun v h => by rw [Update_MinFeeB, h]; rfl, fun h => by rw [Update_MinFeeB, h]; rfl⟩
  · exact ⟨fun v h => by rw [Update_MaxBlockBodySize, h]; rfl, fun h => by rw [Update_MaxBlockBodySize, h]; rfl⟩
  · exact ⟨fun v h => by rw [Update_MaxTxSize, h]; rfl, fun h => by rw [Update_MaxTxSize, h]; rfl⟩
  · exact ⟨fun v h => by rw [Update_MaxBlockHeaderSize, h]; rfl, fun h => by rw [Update_MaxBlockHeaderSize, h]; rfl⟩
  · exact ⟨fun v h => by rw [Update_KeyDeposit, h]; rfl, fun h => by rw [Update_KeyDeposit, h]; rfl⟩
  · exact ⟨fun v h => by rw [Update_PoolDeposit, h]; rfl, fun h => by rw [Update_PoolDeposit, h]; rfl⟩
  · exact ⟨fun v h => by rw [Update_MaxEpoch, h]; rfl, fun h => by rw [Update_MaxEpoch, h]; rfl⟩
  · exact ⟨fun v h => by rw [Update_NOpt, h]; rfl, fun h => by rw [Update_NOpt, h]; rfl⟩
  · exact ⟨fun v h => by rw [Update_MinUtxoValue, h]; rfl, fun h => by rw [Update_MinUtxoValue, h]; rfl⟩
  · exact ⟨fun v h => by rw [Update_A0, h]; rfl, fun h => by rw [Update_A0, h]; rfl⟩
  · exact ⟨fun v h => by rw [Update_Rho, h]; rfl, fun h => by rw [Update_Rho, h]; rfl⟩
  · exact ⟨fun v h => by rw [Update_Tau, h]; rfl, fun h => by rw [Update_Tau, h]; rfl⟩
  · exact ⟨fun v h => by rw [Update_Decentralization, h]; rfl, fun h => by rw [Update_Decentralization, h]; rfl⟩
  · exact ⟨fun v h => by rw [Update_Nonce, h]; rfl, fun h => by rw [Update_Nonce, h]; rfl⟩
  · exact ⟨fun v h => ⟨by rw [Update_ProtocolMajor, h]; rfl, by rw [Update_ProtocolMinor, h]; rfl⟩,
      fun h => ⟨by rw [Update_ProtocolMajor, h]; rfl, by rw [Update_ProtocolMinor, h]; rfl⟩⟩
  · rintro ⟨h0, h1, h2, h3, h4, h5, h6, h7, h8, h9, h10, h11, h12, h13, h14, h15⟩
    simp only [ShelleyProtocolParameters.Update, h0, h1, h2, h3, h4, h5, h6, h7, h8, h9, h10, h11, h12, h13, h14, h15, ifSet]

/-- C16, on `demoParams` and `demoUpdate`: the two present entries are taken
over, an absent one is kept. -/
theorem Update_sets_present_entries_witness :
    (demoParams.Update demoUpdate).MinFeeA = 45 ∧
    ((demoParams.Update demoUpdate).ProtocolMajor = 3 ∧
      (demoParams.Update demoUpdate).ProtocolMinor = 1) ∧
    (demoParams.Update demoUpdate).MinFeeB = demoParams.MinFeeB :=
  ⟨(Update_sets_present_entries demoParams demoUpdate).1.1 45 rfl,
   (Update_sets_present_entries demoParams demoUpdate).2.2.2.2.2.2.2.2.2.2.2.2.2.2.2.1.1
      ⟨3, 1⟩ rfl,
   (Update_sets_present_entries demoParams demoUpdate).2.1.2 rfl⟩

/-- C15: `UpdateFromGenesis` leaves `p.Nonce` exactly as it was. -/
theorem UpdateFromGenesis_keeps_Nonce (p : ShelleyProtocolParameters) (g : ShelleyGenesis) :
    (p.UpdateFromGenesis g).Nonce = p.Nonce := by
  simp only [ShelleyProtocolParameters.UpdateFromGenesis,
    ifSet_apply ShelleyProtocolParameters.Nonce, elim_same]

theorem UpdateFromGenesis_A0 (p : ShelleyProtocolParameters) (g : ShelleyGenesis) :
    (p.UpdateFromGenesis g).A0 =
      g.ProtocolParameters.A0.elim p.A0 (fun r => some ⟨r.Rat⟩) := by
  simp only [ShelleyProtocolParameters.UpdateFromGenesis,
    ifSet_apply ShelleyProtocolParameters.A0, elim_same]

theorem UpdateFromGenesis_Rho (p : ShelleyProtocolParameters) (g : ShelleyGenesis) :
    (p.UpdateFromGenesis g).Rho =
      g.ProtocolParameters.Rho.elim p.Rho (fun r => some ⟨r.Rat⟩) := by
  simp only [ShelleyProtocolParameters.UpdateFromGenesis,
    ifSet_apply ShelleyProtocolParameters.Rho, elim_same]

theorem UpdateFromGenesis_Tau (p : ShelleyProtocolParameters) (g : ShelleyGenesis) :
    (p.UpdateFromGenesis g).Tau =
      g.ProtocolParameters.Tau.elim p.Tau (fun r => some ⟨r.Rat⟩) := by
  simp only [ShelleyProtocolParameters.UpdateFromGenesis,
    ifSet_apply ShelleyProtocolParameters.Tau, elim_same]

theorem UpdateFromGenesis_Decentralization (p : ShelleyProtocolParameters) (g : ShelleyGenesis) :
    (p.UpdateFromGenesis g).Decentralization =
      g.ProtocolParameters.Decentralization.elim p.Decentralization (fun r => some ⟨r.Rat⟩) := by
  simp only [ShelleyProtocolParameters.UpdateFromGenesis,
    ifSet_apply ShelleyProtocolParameters.Decentralization, elim_same]

/-- C17: after `p.UpdateFromGenesis(g)` the unsigned parameters (the ten plain
ones and `ProtocolMajor`/`ProtocolMinor`) equal the genesis values, and each of
`A0`, `Rho`, `Tau`, `Decentralization` holds a rational equal in value to the
genesis rational when genesis has one and keeps its previous value when genesis
has none. -/
theorem UpdateFromGenesis_copies_genesis (p : ShelleyProtocolParameters) (g : ShelleyGenesis) :
    (p.UpdateFromGenesis g).MinFeeA = g.ProtocolParameters.MinFeeA ∧
    (p.UpdateFromGenesis g).MinFeeB = g.ProtocolParameters.MinFeeB ∧
    (p.UpdateFromGenesis g).MaxBlockBodySize = g.ProtocolParameters.MaxBlockBodySize ∧
    (p.UpdateFromGenesis g).MaxTxSize = g.ProtocolParameters.MaxTxSize ∧
    (p.UpdateFromGenesis g).MaxBlockHeaderSize = g.ProtocolParameters.MaxBlockHeaderSize ∧
    (p.UpdateFromGenesis g).KeyDeposit = g.ProtocolParameters.KeyDeposit ∧
    (p.UpdateFromGenesis g).PoolDeposit = g.ProtocolParameters.PoolDeposit ∧
    (p.UpdateFromGenesis g).MaxEpoch = g.ProtocolParameters.MaxEpoch ∧
    (p.UpdateFromGenesis g).NOpt = g.ProtocolParameters.NOpt ∧
    (p.UpdateFromGenesis g).MinUtxoValue = g.ProtocolParameters.MinUtxoValue ∧
    (p.UpdateFromGenesis g).ProtocolMajor = g.ProtocolParameters.ProtocolVersion.Major ∧
    (p.UpdateFromGenesis g).ProtocolMinor = g.ProtocolParameters.ProtocolVersion.Minor ∧
    ((∀ r, g.ProtocolParameters.A0 = some r →
        ∃ q, (p.UpdateFromGenesis g).A0 = some q ∧ q.Rat = r.Rat) ∧
      (g.ProtocolParameters.A0 = none → (p.UpdateFromGenesis g).A0 = p.A0)) ∧
    ((∀ r, g.ProtocolParameters.Rho = some r →
        ∃ q, (p.UpdateFromGenesis g).Rho = some q ∧ q.Rat = r.Rat) ∧
      (g.ProtocolParameters.Rho = none → (p.UpdateFromGenesis g).Rho = p.Rho)) ∧
    ((∀ r, g.ProtocolParameters.Tau = some r →
        ∃ q, (p.UpdateFromGenesis g).Tau = some q ∧ q.Rat = r.Rat) ∧
      (g.ProtocolParameters.Tau = none → (p.UpdateFromGenesis g).Tau = p.Tau)) ∧
    ((∀ r, g.ProtocolParameters.Decentralization = some r →
        ∃ q, (p.UpdateFromGenesis g).Decentralization = some q ∧ q.Rat = r.Rat) ∧
      (g.ProtocolParameters.Decentralization = none → (p.UpdateFromGenesis g).Decentralization = p.Decentralization)) := by
  refine ⟨?_, ?_, ?_, ?_, ?_, ?_, ?_, ?_, ?_, ?_, ?_, ?_, ?_, ?_, ?_, ?_⟩
  · simp only [ShelleyProtocolParameters.UpdateFromGenesis,
      ifSet_apply ShelleyProtocolParameters.MinFeeA, elim_same]
  · simp only [ShelleyProtocolParameters.UpdateFromGenesis,
      ifSet_apply ShelleyProtocolParameters.MinFeeB, elim_same]
  · simp only [ShelleyProtocolParameters.UpdateFromGenesis,
      ifSet_apply ShelleyProtocolParameters.MaxBlockBodySize, elim_same]
  · simp only [ShelleyProtocolParameters.UpdateFromGenesis,
      ifSet_apply ShelleyProtocolParameters.MaxTxSize, elim_same]
  · simp only [ShelleyProtocolParameters.UpdateFromGenesis,
      ifSet_apply ShelleyProtocolParameters.MaxBlockHeaderSize, elim_same]
  · simp only [ShelleyProtocolParameters.UpdateFromGenesis,
      ifSet_apply ShelleyProtocolParameters.KeyDeposit, elim_same]
  · simp only [ShelleyProtocolParameters.UpdateFromGenesis,
      ifSet_apply ShelleyProtocolParameters.PoolDeposit, elim_same]
  · simp only [ShelleyProtocolParameters.UpdateFromGenesis,
      ifSet_apply ShelleyProtocolParameters.MaxEpoch, elim_same]
  · simp only [ShelleyProtocolParameters.UpdateFromGenesis,
      ifSet_apply ShelleyProtocolParameters.NOpt, elim_same]
  · simp only [ShelleyProtocolParameters.UpdateFromGenesis,
      ifSet_apply ShelleyProtocolParameters.MinUtxoValue, elim_same]
  · simp only [ShelleyProtocolParameters.UpdateFromGenesis,
      ifSet_apply ShelleyProtocolParameters.ProtocolMajor, elim_same]
  · simp only [ShelleyProtocolParameters.UpdateFromGenesis,
      ifSet_apply ShelleyProtocolParameters.ProtocolMinor, elim_same]
  · exact ⟨fun r h => ⟨⟨r.Rat⟩, by rw [UpdateFromGenesis_A0, h]; rfl, rfl⟩,
      fun h => by rw [UpdateFromGenesis_A0, h]; rfl⟩
  · exact ⟨fun r h => ⟨⟨r.Rat⟩, by rw [UpdateFromGenesis_Rho, h]; rfl, rfl⟩,
      fun h => by rw [UpdateFromGenesis_Rho, h]; rfl⟩
  · exact ⟨fun r h => ⟨⟨r.Rat⟩, by rw [UpdateFromGenesis_Tau, h]; rfl, rfl⟩,
      fun h => by rw [UpdateFromGenesis_Tau, h]; rfl⟩
  · exact ⟨fun r h => ⟨⟨r.Rat⟩, by rw [UpdateFromGenesis_Decentralization, h]; rfl, rfl⟩,
      fun h => by rw [UpdateFromGenesis_Decentralization, h]; rfl⟩

/-- C17, on `demoParams` and `demoGenesis`: `A0` is taken from genesis, `Rho`,
which genesis lacks, is kept. -/
theorem UpdateFromGenesis_copies_genesis_witness :
    (demoParams.UpdateFromGenesis demoGenesis).MinFeeA = 1 ∧
    (∃ q, (demoParams.UpdateFromGenesis demoGenesis).A0 = some q ∧ q.Rat = 1 / 2) ∧
    (demoParams.UpdateFromGenesis demoGenesis).Rho = demoParams.Rho :=
  ⟨(UpdateFromGenesis_copies_genesis demoParams demoGenesis).1,
   (UpdateFromGenesis_copies_genesis demoParams demoGenesis).2.2.2.2.2.2.2.2.2.2.2.2.1.1
      ⟨1 / 2⟩ rfl,
   (UpdateFromGenesis_copies_genesis demoParams demoGenesis).2.2.2.2.2.2.2.2.2.2.2.2.2.1.2 rfl⟩

end shelley

namespace cbor

/-! ## Decoded unsigned integers fit 64 bits -/

theorem beNat_foldl_lt (bs : List Byte) :
    ∀ a : Nat, bs.foldl (fun acc b => acc * 256 + b.val) a < (a + 1) * 256 ^ bs.length := by
  induction bs with
  | nil => intro a; simp
  | cons b tl ih =>
    intro a
    simp only [List.foldl_cons, List.length_cons]
    have h1 := ih (a * 256 + b.val)
    have hb : b.val < 256 := b.isLt
    have h2 : (a * 256 + b.val + 1) * 256 ^ tl.length ≤ (a + 1) * 256 * 256 ^ tl.length :=
      Nat.mul_le_mul_right _ (by omega)
    calc List.foldl (fun acc b => acc * 256 + b.val) (a * 256 + b.val) tl
        < (a * 256 + b.val + 1) * 256 ^ tl.length := h1
      _ ≤ (a + 1) * 256 * 256 ^ tl.length := h2
      _ = (a + 1) * 256 ^ (tl.length + 1) := by rw [pow_succ]; ring

theorem beNat_lt (bs : List Byte) : beNat bs < 256 ^ bs.length := by
  have := beNat_foldl_lt bs 0
  simpa [beNat] using this

theorem readArg_lt {ai v : Nat} {bs r : List Byte} (h : readArg ai bs = some (v, r)) :
    v < 2 ^ 64 := by
  unfold readArg at h
  split_ifs at h with h0 h1 h2 h3 h4
  · simp only [Option.some.injEq, Prod.mk.injEq] at h
    omega
  all_goals
    simp only [Option.map_eq_some', Prod.mk.injEq, Prod.exists] at h
    obtain ⟨a, b, hab, rfl, -⟩ := h
    have hl := (takeN_length hab).2
    have hlt := beNat_lt a
    rw [hl] at hlt
    exact Nat.lt_of_lt_of_le hlt (by norm_num)

theorem decodeHead_uint_lt {ib : Byte} {bs r : List Byte} {v : Nat}
    (h : decodeHead ib bs = some (Body.leaf (Item.uint v) r)) : v < 2 ^ 64 := by
  unfold decodeHead at h
  by_cases h31 : addInfo ib = 31
  · rw [if_pos h31] at h
    split_ifs at h <;> simp at h
  · rw [if_neg h31] at h
    cases hra : readArg (addInfo ib) bs with
    | none => simp [hra] at h
    | some p =>
      obtain ⟨w, r1⟩ := p
      have hw := readArg_lt hra
      simp only [hra] at h
      split_ifs at h <;> simp at h
      · rw [← h.1]; exact hw
      · unfold decodePrimitive at h
        split_ifs at h <;> simp at h

theorem decodeItem_uint_lt {f : Nat} {bs rest : List Byte} {v : Nat}
    (h : decodeItem f bs = some (Item.uint v, rest)) : v < 2 ^ 64 := by
  cases f with
  | zero => rw [decodeItem.eq_1] at h; exact absurd h (by simp)
  | succ g =>
    cases bs with
    | nil => rw [decodeItem.eq_2] at h; exact absurd h (by simp)
    | cons ib tl =>
      rw [decodeItem.eq_3] at h
      cases hh : decodeHead ib tl with
      | none => rw [hh] at h; exact absurd h (by simp)
      | some b =>
        rw [hh] at h
        cases b with
        | leaf x r0 =>
          simp only [Option.some.injEq, Prod.mk.injEq] at h
          obtain ⟨rfl, rfl⟩ := h
          exact decodeHead_uint_lt hh
        | arr n r0 =>
          simp only [Option.map_eq_some', Prod.mk.injEq, Prod.exists] at h
          obtain ⟨_, _, _, hx, _⟩ := h
          exact absurd hx (by simp)
        | arrIndef r0 =>
          simp only [Option.map_eq_some', Prod.mk.injEq, Prod.exists] at h
          obtain ⟨_, _, _, hx, _⟩ := h
          exact absurd hx (by simp)
        | mp n r0 =>
          simp only [Option.bind_eq_some, Option.map_eq_some', Prod.mk.injEq, Prod.exists] at h
          obtain ⟨_, _, _, _, _, hx, _⟩ := h
          exact absurd hx (by simp)
        | mpIndef r0 =>
          simp only [Option.bind_eq_some, Option.map_eq_some', Prod.mk.injEq, Prod.exists] at h
          obtain ⟨_, _, _, _, _, hx, _⟩ := h
          exact absurd hx (by simp)
        | tagged t r0 =>
          simp only [Option.map_eq_some', Prod.mk.injEq, Prod.exists] at h
          obtain ⟨_, _, _, hx, _⟩ := h
          exact absurd hx (by simp)

/-- The first element of a decoded array, when it is an unsigned integer and
the header is one byte or indefinite, is below 2^64. -/
theorem array_first_uint_lt {f : Nat} {bs rest : List Byte} {v : Nat} {tl : List Item}
    (h : decodeItem f bs = some (Item.array (Item.uint v :: tl), rest))
    (hhead : ∀ b0 ∈ bs.head?, ¬ (0x98 ≤ b0.val ∧ b0.val ≤ 0x9b)) : v < 2 ^ 64 := by
  obtain ⟨ib, tl0, ps, hbs, h4, he, hxs, -⟩ := parse_array h
  subst hbs
  have hb := hhead ib (by simp)
  have hai : ¬ (24 ≤ addInfo ib ∧ addInfo ib ≤ 27) := by
    unfold majorType at h4
    unfold addInfo
    omega
  cases ps with
  | nil => simp at hxs
  | cons p ps1 =>
    simp only [List.map_cons, List.cons.injEq] at hxs
    obtain ⟨f1, r1, hx1⟩ := decodeElems_first he hai
    rw [← hxs.1] at hx1
    exact decodeItem_uint_lt hx1

end cbor

namespace shelley

theorem uintOfInt_intOfUint64 {v : Nat} (h : v < 2 ^ 64) :
    uintOfInt (cbor.intOfUint64 v) = v := by
  unfold uintOfInt cbor.intOfUint64
  split_ifs <;> omega

theorem intOfUint64_ne {v : Nat} (h : v < 2 ^ 64) (h0 : v ≠ 0) (h1 : v ≠ 1) :
    cbor.intOfUint64 v ≠ 0 ∧ cbor.intOfUint64 v ≠ 1 := by
  unfold cbor.intOfUint64
  split_ifs <;> constructor <;> omega

/-- What `UnmarshalCBOR` does once `DecodeIdFromList` has returned an id that is
neither 0 nor 1. -/
theorem UnmarshalCBOR_of_other_id (dg : List cbor.Byte → Nonce → Option cbor.Err × Nonce)
    (n : Nonce) (data : List cbor.Byte) (id : Int)
    (hid : cbor.DecodeIdFromList data = .ret id none) (h0 : id ≠ 0) (h1 : id ≠ 1) :
    Nonce.UnmarshalCBOR dg n data =
      .ret { n with «Type» := uintOfInt id } (some (.unsupportedNonceType id)) := by
  simp only [Nonce.UnmarshalCBOR, hid, NonceType0, NonceType1, if_neg h0, if_neg h1]

/-- C18 (as stated, refuted): decoding `81 02` into the neutral nonce returns
the "unsupported nonce type" error, and the nonce it leaves has `Type` 2, no
longer 0. -/
theorem UnmarshalCBOR_error_path_sets_Type :
    Nonce.UnmarshalCBOR (fun _ n => (none, n)) NeutralNonce [0x81, 0x02] =
      .ret { «Type» := 2, Value := Bytes32.zero } (some (.unsupportedNonceType 2)) ∧
    NeutralNonce.Type = 0 :=
  ⟨by rfl, rfl⟩

/-- C18 (amended): on a well-formed array whose header is not one of the longer
forms 0x98..0x9b and whose first element is an unsigned integer `v` other than
0 and 1, `UnmarshalCBOR` returns the "unsupported nonce type" error and leaves
`Value` as it was, with `Type` set to `v`; the same holds, with the id
converted to `uint`, whenever `DecodeIdFromList` returns an id other than 0 and
1; and an error of `DecodeIdFromList` is returned with the nonce unchanged. -/
theorem UnmarshalCBOR_error_paths (dg : List cbor.Byte → Nonce → Option cbor.Err × Nonce)
    (n : Nonce) (data : List cbor.Byte) :
    (∀ (f : Nat) (rest : List cbor.Byte) (v : Nat) (tl : List cbor.Item),
      cbor.decodeItem f data = some (cbor.Item.array (cbor.Item.uint v :: tl), rest) →
      (∀ b0 ∈ data.head?, ¬ (0x98 ≤ b0.val ∧ b0.val ≤ 0x9b)) → v ≠ 0 → v ≠ 1 →
      Nonce.UnmarshalCBOR dg n data =
        .ret { n with «Type» := v } (some (.unsupportedNonceType (cbor.intOfUint64 v)))) ∧
    (∀ id : Int, cbor.DecodeIdFromList data = .ret id none → id ≠ 0 → id ≠ 1 →
      Nonce.UnmarshalCBOR dg n data =
        .ret { n with «Type» := uintOfInt id } (some (.unsupportedNonceType id))) ∧
    (∀ (val : Int) (e : cbor.Err), cbor.DecodeIdFromList data = .ret val (some e) →
      Nonce.UnmarshalCBOR dg n data = .ret n (some (.cbor e))) := by
  refine ⟨?_, UnmarshalCBOR_of_other_id dg n data, ?_⟩
  · intro f rest v tl hwf hhead h0 h1
    have hlt := cbor.array_first_uint_lt hwf hhead
    have hid := (cbor.DecodeIdFromList_array hwf
      (fun b0 hb0 hb => hhead b0 hb0 ⟨hb.1, hb.2.1⟩)).2.1 v tl rfl
    have hne := intOfUint64_ne hlt h0 h1
    rw [UnmarshalCBOR_of_other_id dg n data _ hid hne.1 hne.2, uintOfInt_intOfUint64 hlt]
  · intro val e hid
    simp only [Nonce.UnmarshalCBOR, hid]

/-- C18 (amended), on `demoNonce`: `81 02` gives the unsupported-type error with
`Type` 2 and the value kept; the empty list `80` gives the error of
`DecodeIdFromList` with the nonce as it was. -/
theorem UnmarshalCBOR_error_paths_witness :
    Nonce.UnmarshalCBOR (fun _ n => (none, n)) demoNonce [0x81, 0x02] =
      .ret { demoNonce with «Type» := 2 }
        (some (.unsupportedNonceType (cbor.intOfUint64 2))) ∧
    Nonce.UnmarshalCBOR (fun _ n => (none, n)) demoNonce [0x80] =
      .ret demoNonce (some (.cbor .emptyList)) :=
  ⟨(UnmarshalCBOR_error_paths (fun _ n => (none, n)) demoNonce [0x81, 0x02]).1
      4 [] 2 [] (by rfl)
      (fun b0 hb0 => by
        simp only [List.head?_cons, Option.mem_def, Option.some.injEq] at hb0
        subst hb0; decide)
      (by decide) (by decide),
   (UnmarshalCBOR_error_paths (fun _ n => (none, n)) demoNonce [0x80]).2.2
      0 .emptyList (by rfl)⟩

/-- C19 (code defect): on the array `81 00`, whose first element is 0,
`UnmarshalCBOR` sets `Type` to 0 and leaves `Value` as the destination held it,
although the source notes "Value uses default value": decoding into `demoNonce`
gives a nonce that is not `NeutralNonce`. With the longer header `98 01 00` the
same array is taken for a nonce of type 1. -/
theorem UnmarshalCBOR_type0_keeps_stale_value :
    (∀ (dg : List cbor.Byte → Nonce → Option cbor.Err × Nonce) (n : Nonce),
      Nonce.UnmarshalCBOR dg n [0x81, 0x00] = .ret { n with «Type» := 0 } none) ∧
    Nonce.UnmarshalCBOR (fun _ n => (none, n)) demoNonce [0x81, 0x00] =
      .ret { «Type» := 0, Value := demoNonce.Value } none ∧
    ({ «Type» := 0, Value := demoNonce.Value } : Nonce) ≠ NeutralNonce ∧
    cbor.DecodeValue [0x98, 0x01, 0x00] = .ok (cbor.Item.array [cbor.Item.uint 0]) ∧
    Nonce.UnmarshalCBOR (fun _ n => (none, n)) NeutralNonce [0x98, 0x01, 0x00] =
      .ret { «Type» := 1, Value := Bytes32.zero } none := by
  refine ⟨fun dg n => ?_, by rfl, by decide, by rfl, by rfl⟩
  have hid : cbor.DecodeIdFromList [0x81, 0x00] = .ret 0 none := by rfl
  simp only [Nonce.UnmarshalCBOR, hid, NonceType0, if_true]
  rfl

end shelley
